import Mathlib

/-!
Verification of the lexer and recursive-descent parser of the `Language`
repository (`src/lexer.rs`, `src/parsing.rs`, `src/ast.rs`).

The Rust code is shallowly embedded:

* The scanner state `Lexer` keeps the current `Location` and the remaining
  characters of the source (`rest : List Char`).  The Rust original keeps the
  whole source string together with a byte index and a `Peekable<CharIndices>`
  iterator; the slice of not-yet-consumed characters is exactly `rest`, and
  identifier slices `source[start..cur]` are recovered by accumulating the
  consumed characters.  Byte positions are tracked through `Char.utf8Size`,
  matching `CharIndices` byte offsets.
* `u64` arithmetic is modelled on `Nat` with the explicit bound
  `u64Max = 2 ^ 64 - 1`; `checked_mul`/`checked_add` become explicit
  comparisons against `u64Max` (this is the only place where overflow can
  occur in the original).  `line`/`column` are `NonZero<usize>` advanced with
  `saturating_add`; saturation happens only at `usize::MAX`, which no real
  source string (capped at `isize::MAX` bytes) can reach, so they are
  modelled as plain `Nat`.
* The symbol-interning service is external to the core (spec §1, §6); its
  contract is only that equal text yields equal, comparable identities.  The
  text itself satisfies that contract, so a `Spur` is modelled as the interned
  `String`.
* Rust's `loop { ... continue ... }` in `next_token` only re-enters on
  whitespace, so it is embedded as `skipWhitespace` followed by a single
  classification step; the two inner `while` loops become the structurally
  recursive `lexIdent` and `lexInt`.
* The parser's recursion is not structural in any argument, so every parser
  function takes an explicit fuel parameter, decremented on every call;
  running out of fuel yields the artefact error `OutOfFuel`, which the
  original cannot produce.  All claims about successful parses quantify over
  the fuel, and concrete runs use enough fuel for the input at hand.
-/

namespace Lang

/-- Unicode code point of a character, used to express the `char`
classification predicates of the Rust standard library arithmetically. -/
def cp (c : Char) : Nat := c.toNat

/-- `char::is_ascii_digit`. -/
def isAsciiDigit (c : Char) : Bool := 48 ≤ cp c && cp c ≤ 57

/-- `char::is_ascii_alphabetic`. -/
def isAsciiAlphabetic (c : Char) : Bool :=
  (65 ≤ cp c && cp c ≤ 90) || (97 ≤ cp c && cp c ≤ 122)

/-- `char::is_ascii_alphanumeric`. -/
def isAsciiAlphanumeric (c : Char) : Bool :=
  isAsciiAlphabetic c || isAsciiDigit c

/-- `char::is_whitespace`: the Unicode `White_Space` property, written out
as the full table of code points. -/
def rustIsWhitespace (c : Char) : Bool :=
  cp c = 9 || cp c = 10 || cp c = 11 || cp c = 12 || cp c = 13 ||
  cp c = 32 || cp c = 133 || cp c = 160 || cp c = 5760 ||
  (8192 ≤ cp c && cp c ≤ 8202) || cp c = 8232 || cp c = 8233 ||
  cp c = 8239 || cp c = 8287 || cp c = 12288

/-- `char::to_digit`: `0`-`9`, `a`-`z`, `A`-`Z` name the values `0`-`35`;
the result must be below the radix. -/
def rustToDigit (c : Char) (radix : Nat) : Option Nat :=
  let d? : Option Nat :=
    if 48 ≤ cp c ∧ cp c ≤ 57 then some (cp c - 48)
    else if 97 ≤ cp c ∧ cp c ≤ 122 then some (cp c - 97 + 10)
    else if 65 ≤ cp c ∧ cp c ≤ 90 then some (cp c - 65 + 10)
    else none
  match d? with
  | some d => if d < radix then some d else none
  | none => none

/-- `u64::MAX`. -/
def u64Max : Nat := 2 ^ 64 - 1

/-- `Location` (`lexer.rs`): a point in a named source file.  `filepath`
is an interned symbol, modelled by the interned text itself. -/
structure Location where
  filepath : String
  position : Nat
  line : Nat
  column : Nat
deriving DecidableEq

/-- `TokenKind` (`lexer.rs`): the closed set of token kinds.  `Name` holds
the interned identifier text. -/
inductive TokenKind where
  | EOF
  | Name (text : String)
  | Integer (value : Nat)
  | Let
  | Fn
  | Return
  | OpenParenthesis
  | CloseParenthesis
  | OpenBrace
  | CloseBrace
  | Comma
  | Colon
  | Semicolon
  | Equals
  | Plus
  | Minus
  | Asterisk
  | Slash
  | RightArrow
deriving DecidableEq

/-- `Token` (`lexer.rs`). -/
structure Token where
  kind : TokenKind
  location : Location
deriving DecidableEq

/-- `LexerErrorKind` (`lexer.rs`). -/
inductive LexerErrorKind where
  | UnexpectedChar (c : Char)
  | IntegerTooLarge
  | DigitTooLarge (base : Nat)
deriving DecidableEq

/-- `LexerError` (`lexer.rs`). -/
structure LexerError where
  kind : LexerErrorKind
  location : Location
deriving DecidableEq

/-- `Lexer` (`lexer.rs`): current location plus the characters that have not
been consumed yet. -/
structure Lexer where
  location : Location
  rest : List Char
deriving DecidableEq

/-- `Lexer::new`. -/
def Lexer.new (filepath : String) (source : String) : Lexer :=
  { location := { filepath, position := 0, line := 1, column := 1 }
    rest := source.data }

/-- Advancing the location over one consumed character, as done by
`Lexer::next_char`: the byte position moves by the character's UTF-8 length,
the column grows by one, and a newline bumps the line and resets the column
to 1. -/
def Location.advance (loc : Location) (c : Char) : Location :=
  let loc := { loc with position := loc.position + c.utf8Size,
                        column := loc.column + 1 }
  if c = '\n' then { loc with line := loc.line + 1, column := 1 } else loc

/-- `Lexer::peek_char`. -/
def Lexer.peekChar (l : Lexer) : Option Char := l.rest.head?

/-- `Lexer::next_char`. -/
def Lexer.nextChar (l : Lexer) : Option Char × Lexer :=
  match l.rest with
  | [] => (none, l)
  | c :: rest => (some c, { location := l.location.advance c, rest })

/-- The whitespace-skipping behaviour of the `loop`/`continue` in
`Lexer::next_token`: consume characters while `char::is_whitespace` holds. -/
def skipWhitespace (loc : Location) : List Char → Location × List Char
  | [] => (loc, [])
  | c :: rest =>
    if rustIsWhitespace c then skipWhitespace (loc.advance c) rest
    else (loc, c :: rest)

/-- The identifier-start test of `Lexer::next_token`:
`c.is_ascii_alphabetic() || c == '_'`. -/
def identStart (c : Char) : Bool := isAsciiAlphabetic c || c = '_'

/-- The identifier-continuation test of `Lexer::next_token`:
`c.is_ascii_alphanumeric() || c == '_'`. -/
def identCont (c : Char) : Bool := isAsciiAlphanumeric c || c = '_'

/-- The identifier `while` loop of `Lexer::next_token`: consume characters
while they are ASCII alphanumeric or `_`, returning the consumed characters
(the slice `source[start..cur]` of the original), the final location and the
remaining input. -/
def lexIdent (loc : Location) : List Char → List Char × Location × List Char
  | [] => ([], loc, [])
  | c :: rest =>
    if identCont c then
      let (taken, loc', rest') := lexIdent (loc.advance c) rest
      (c :: taken, loc', rest')
    else ([], loc, c :: rest)

/-- The digit `while` loop of `Lexer::next_token`: as long as the next
character is ASCII alphanumeric, validate it against the base
(`DigitTooLarge` at the offending character otherwise) and fold it into the
accumulator with checked multiply-then-add (`IntegerTooLarge` at the
literal's start on overflow). -/
def lexInt (base : Nat) (value : Nat) (startLoc : Location) (loc : Location) :
    List Char → Except LexerError (Nat × Location × List Char)
  | [] => .ok (value, loc, [])
  | c :: rest =>
    if isAsciiAlphanumeric c then
      match rustToDigit c base with
      | none => .error ⟨.DigitTooLarge base, loc⟩
      | some digit =>
        if value * base ≤ u64Max then
          if value * base + digit ≤ u64Max then
            lexInt base (value * base + digit) startLoc (loc.advance c) rest
          else .error ⟨.IntegerTooLarge, startLoc⟩
        else .error ⟨.IntegerTooLarge, startLoc⟩
    else .ok (value, loc, c :: rest)

/-- The keyword check of the identifier arm of `Lexer::next_token`: match
the consumed slice against `let`/`fn`/`return`, interning anything else as a
`Name`. -/
def identTokenKind (s : String) : TokenKind :=
  match s with
  | "let" => .Let
  | "fn" => .Fn
  | "return" => .Return
  | _ => .Name s

/-- `Lexer::next_token`. -/
def Lexer.nextToken (l : Lexer) : Except LexerError (Token × Lexer) :=
  let (startLocation, rest) := skipWhitespace l.location l.rest
  match rest with
  | [] => .ok (⟨.EOF, startLocation⟩, ⟨startLocation, []⟩)
  | c :: rest1 =>
    let loc1 := startLocation.advance c
    if c = '(' then .ok (⟨.OpenParenthesis, startLocation⟩, ⟨loc1, rest1⟩)
    else if c = ')' then .ok (⟨.CloseParenthesis, startLocation⟩, ⟨loc1, rest1⟩)
    else if c = '\x7b' then .ok (⟨.OpenBrace, startLocation⟩, ⟨loc1, rest1⟩)
    else if c = '\x7d' then .ok (⟨.CloseBrace, startLocation⟩, ⟨loc1, rest1⟩)
    else if c = ',' then .ok (⟨.Comma, startLocation⟩, ⟨loc1, rest1⟩)
    else if c = ':' then .ok (⟨.Colon, startLocation⟩, ⟨loc1, rest1⟩)
    else if c = ';' then .ok (⟨.Semicolon, startLocation⟩, ⟨loc1, rest1⟩)
    else if c = '=' then .ok (⟨.Equals, startLocation⟩, ⟨loc1, rest1⟩)
    else if c = '+' then .ok (⟨.Plus, startLocation⟩, ⟨loc1, rest1⟩)
    else if c = '-' then
      match rest1 with
      | '>' :: rest2 =>
        .ok (⟨.RightArrow, startLocation⟩, ⟨loc1.advance '>', rest2⟩)
      | _ => .ok (⟨.Minus, startLocation⟩, ⟨loc1, rest1⟩)
    else if c = '*' then .ok (⟨.Asterisk, startLocation⟩, ⟨loc1, rest1⟩)
    else if c = '/' then .ok (⟨.Slash, startLocation⟩, ⟨loc1, rest1⟩)
    else if identStart c then
      let (taken, loc2, rest2) := lexIdent loc1 rest1
      .ok (⟨identTokenKind (String.mk (c :: taken)), startLocation⟩, ⟨loc2, rest2⟩)
    else if isAsciiDigit c then
      let value := (rustToDigit c 10).getD 0
      let (base, locB, restB) : Nat × Location × List Char :=
        if c = '0' then
          match rest1 with
          | 'x' :: rest2 => (16, loc1.advance 'x', rest2)
          | 'd' :: rest2 => (10, loc1.advance 'd', rest2)
          | 'o' :: rest2 => (8, loc1.advance 'o', rest2)
          | 'b' :: rest2 => (2, loc1.advance 'b', rest2)
          | _ => (10, loc1, rest1)
        else (10, loc1, rest1)
      match lexInt base value startLocation locB restB with
      | .ok (value, loc3, rest3) =>
        .ok (⟨.Integer value, startLocation⟩, ⟨loc3, rest3⟩)
      | .error e => .error e
    else .error ⟨.UnexpectedChar c, startLocation⟩

/-- `Lexer::clone` (`#[derive(Clone)]`): a field-by-field copy of the
scanner state. -/
def Lexer.clone (l : Lexer) : Lexer :=
  { location := l.location, rest := l.rest }

/-- `Lexer::peek_token`: `self.clone().next_token()`, discarding the
clone's final state. -/
def Lexer.peekToken (l : Lexer) : Except LexerError Token :=
  Except.map Prod.fst l.clone.nextToken

/-- `BinaryOperator` (`ast.rs`). -/
inductive BinaryOperator where
  | Add
  | Subtract
  | Multiply
  | Divide
deriving DecidableEq

/-- `BinaryOperator::from_token_kind` (`ast.rs`). -/
def BinaryOperator.fromTokenKind : TokenKind → Option BinaryOperator
  | .Plus => some .Add
  | .Minus => some .Subtract
  | .Asterisk => some .Multiply
  | .Slash => some .Divide
  | _ => none

/-- `BinaryOperator::precedence` (`ast.rs`): `*`, `/` bind at 2; `+`, `-`
at 1 (the Rust value is a `NonZero<u8>`; both table entries are nonzero and
far below 255, so plain `Nat` is faithful). -/
def BinaryOperator.precedence : BinaryOperator → Nat
  | .Multiply | .Divide => 2
  | .Add | .Subtract => 1

/- The AST node set (`ast.rs`).  Each Rust struct `{ kind, location }` is a
single-constructor inductive so that the whole family can sit in one mutual
block; `Box`es disappear (Lean values are already tree-shaped) and `Vec`s
become `List`s. -/

mutual
/-- `Ast` (`ast.rs`). -/
inductive Ast where
  | mk (kind : AstKind) (location : Location)

/-- `AstKind` (`ast.rs`). -/
inductive AstKind where
  | Expression (expression : AstExpression)
  | Let (pattern : AstPattern) (equals : Location) (value : AstExpression)
  | Function (name : Token) (arguments : List AstPattern)
      (returnType : Option AstExpression) (body : AstExpression)
  | Return (expression : AstExpression)

/-- `AstExpression` (`ast.rs`). -/
inductive AstExpression where
  | mk (kind : AstExpressionKind) (location : Location)

/-- `AstExpressionKind` (`ast.rs`). -/
inductive AstExpressionKind where
  | Name (name : String)
  | Integer (value : Nat)
  | Binary (left : AstExpression) (operator : BinaryOperator)
      (right : AstExpression)
  | Block (statements : List Ast) (closeBrace : Location)
  | Call (operand : AstExpression) (arguments : List AstExpression)
      (closeParenthesis : Location)

/-- `AstPattern` (`ast.rs`). -/
inductive AstPattern where
  | mk (kind : AstPatternKind) (location : Location)

/-- `AstPatternKind` (`ast.rs`). -/
inductive AstPatternKind where
  | Let (nameToken : Token) (typ : Option AstExpression)
end

def Ast.kind : Ast → AstKind
  | ⟨kind, _⟩ => kind

def Ast.location : Ast → Location
  | ⟨_, location⟩ => location

def AstExpression.kind : AstExpression → AstExpressionKind
  | ⟨kind, _⟩ => kind

def AstExpression.location : AstExpression → Location
  | ⟨_, location⟩ => location

def AstPattern.kind : AstPattern → AstPatternKind
  | ⟨kind, _⟩ => kind

def AstPattern.location : AstPattern → Location
  | ⟨_, location⟩ => location

/-- `ParseErrorKind` (`parsing.rs`), with one extra constructor `OutOfFuel`
that marks exhaustion of the embedding's fuel parameter; the original
(whose recursion is bounded only by the call stack) never produces it. -/
inductive ParseErrorKind where
  | LexerError (kind : LexerErrorKind)
  | UnexpectedToken (kind : TokenKind)
  | ExpectedGlobalItem (kind : TokenKind)
  | ExpectedExpression (kind : TokenKind)
  | ExpectedPattern (kind : TokenKind)
  | OutOfFuel
deriving DecidableEq

/-- `ParseError` (`parsing.rs`). -/
structure ParseError where
  kind : ParseErrorKind
  location : Location
deriving DecidableEq

/-- `impl From<LexerError> for ParseError` (`parsing.rs`). -/
def ParseError.ofLexer (e : LexerError) : ParseError :=
  { kind := .LexerError e.kind, location := e.location }

/- Token-kind tests used by `expect_token!` and `matches!` patterns. -/

def TokenKind.isName : TokenKind → Bool
  | .Name _ => true
  | _ => false

def TokenKind.isFn : TokenKind → Bool
  | .Fn => true
  | _ => false

def TokenKind.isReturn : TokenKind → Bool
  | .Return => true
  | _ => false

def TokenKind.isEquals : TokenKind → Bool
  | .Equals => true
  | _ => false

def TokenKind.isSemicolon : TokenKind → Bool
  | .Semicolon => true
  | _ => false

def TokenKind.isComma : TokenKind → Bool
  | .Comma => true
  | _ => false

def TokenKind.isOpenParenthesis : TokenKind → Bool
  | .OpenParenthesis => true
  | _ => false

def TokenKind.isCloseParenthesis : TokenKind → Bool
  | .CloseParenthesis => true
  | _ => false

def TokenKind.isOpenBrace : TokenKind → Bool
  | .OpenBrace => true
  | _ => false

def TokenKind.isCloseBrace : TokenKind → Bool
  | .CloseBrace => true
  | _ => false

def TokenKind.isRightArrow : TokenKind → Bool
  | .RightArrow => true
  | _ => false

/-- `expect_token!` (`parsing.rs`): take the next token; if its kind matches
the pattern (here: satisfies the predicate) return it, otherwise fail with
`UnexpectedToken` at that token's location. -/
def expectToken (l : Lexer) (p : TokenKind → Bool) :
    Except ParseError (Token × Lexer) :=
  match l.nextToken with
  | .ok (token, l') =>
    if p token.kind then .ok (token, l')
    else .error ⟨.UnexpectedToken token.kind, token.location⟩
  | .error e => .error (ParseError.ofLexer e)

/-- The open-brace handling at the top of `parse_block`: either an already
consumed `{`'s location was passed in, or a `{` is required now. -/
def parseBlockOpen (l : Lexer) : Option Location →
    Except ParseError (Location × Lexer)
  | some location => .ok (location, l)
  | none =>
    match expectToken l TokenKind.isOpenBrace with
    | .error e => .error e
    | .ok (t, l1) => .ok (t.location, l1)

/- The recursive-descent parser (`parsing.rs`).  Every function takes a fuel
argument consumed on each call; the Rust loops (`while`/`loop`) are the
`...Args`/`...Stmts`/`binLoop` functions below, and the `: type` /
`-> type` optional suffixes, textually duplicated resp. inlined in the
original, are `parsePatternType` and `parseFnReturnType`. -/

mutual
/-- `parse_global` (`parsing.rs`). -/
def parseGlobal : Nat → Lexer → Except ParseError (Ast × Lexer)
  | 0, l => .error ⟨.OutOfFuel, l.location⟩
  | fuel+1, l =>
    match l.nextToken with
    | .error e => .error (ParseError.ofLexer e)
    | .ok (t, l1) =>
      match t.kind with
      | .Fn => parseFn fuel l1 t.location
      | kind => .error ⟨.ExpectedGlobalItem kind, t.location⟩

/-- `parse_statement` (`parsing.rs`). -/
def parseStatement : Nat → Lexer → Except ParseError (Ast × Lexer)
  | 0, l => .error ⟨.OutOfFuel, l.location⟩
  | fuel+1, l =>
    let startLocation := l.location
    match l.peekToken with
    | .error e => .error (ParseError.ofLexer e)
    | .ok t =>
      match t.kind with
      | .Fn =>
        match expectToken l TokenKind.isFn with
        | .error e => .error e
        | .ok (fnTok, l1) => parseFn fuel l1 fnTok.location
      | .Let =>
        match parsePattern fuel l true with
        | .error e => .error e
        | .ok (pattern, l1) =>
          match expectToken l1 TokenKind.isEquals with
          | .error e => .error e
          | .ok (eqTok, l2) =>
            match parseExpression fuel l2 with
            | .error e => .error e
            | .ok (value, l3) =>
              match expectToken l3 TokenKind.isSemicolon with
              | .error e => .error e
              | .ok (_, l4) =>
                .ok (⟨.Let pattern eqTok.location value, startLocation⟩, l4)
      | .Return =>
        match expectToken l TokenKind.isReturn with
        | .error e => .error e
        | .ok (_, l1) =>
          match parseExpression fuel l1 with
          | .error e => .error e
          | .ok (expression, l2) =>
            match expectToken l2 TokenKind.isSemicolon with
            | .error e => .error e
            | .ok (_, l3) => .ok (⟨.Return expression, startLocation⟩, l3)
      | _ =>
        match parseExpression fuel l with
        | .error e => .error e
        | .ok (expression, l1) =>
          match expectToken l1 TokenKind.isSemicolon with
          | .error e => .error e
          | .ok (_, l2) => .ok (⟨.Expression expression, startLocation⟩, l2)
termination_by structural fuel => fuel

/-- `parse_fn` (`parsing.rs`). -/
def parseFn : Nat → Lexer → Location → Except ParseError (Ast × Lexer)
  | 0, l, _ => .error ⟨.OutOfFuel, l.location⟩
  | fuel+1, l, fnLocation =>
    match expectToken l TokenKind.isName with
    | .error e => .error e
    | .ok (name, l1) =>
      match expectToken l1 TokenKind.isOpenParenthesis with
      | .error e => .error e
      | .ok (_, l2) =>
        match parseFnArgs fuel l2 [] with
        | .error e => .error e
        | .ok (arguments, l3) =>
          match expectToken l3 TokenKind.isCloseParenthesis with
          | .error e => .error e
          | .ok (_, l4) =>
            match parseFnReturnType fuel l4 with
            | .error e => .error e
            | .ok (returnType, l5) =>
              match parseBlock fuel l5 none with
              | .error e => .error e
              | .ok (body, l6) =>
                .ok (⟨.Function name arguments returnType body, fnLocation⟩, l6)
termination_by structural fuel => fuel

/-- The parameter loop of `parse_fn`: zero or more comma-separated patterns
(`requires_let = false`) until a `)` is seen. -/
def parseFnArgs : Nat → Lexer → List AstPattern →
    Except ParseError (List AstPattern × Lexer)
  | 0, l, _ => .error ⟨.OutOfFuel, l.location⟩
  | fuel+1, l, arguments =>
    match l.peekToken with
    | .error e => .error (ParseError.ofLexer e)
    | .ok t =>
      if t.kind = .CloseParenthesis then .ok (arguments, l)
      else
        match parsePattern fuel l false with
        | .error e => .error e
        | .ok (pat, l1) =>
          match l1.peekToken with
          | .error e => .error (ParseError.ofLexer e)
          | .ok t2 =>
            if t2.kind = .CloseParenthesis then
              parseFnArgs fuel l1 (arguments ++ [pat])
            else
              match expectToken l1 TokenKind.isComma with
              | .error e => .error e
              | .ok (_, l2) => parseFnArgs fuel l2 (arguments ++ [pat])
termination_by structural fuel => fuel

/-- The `-> <expr>` optional return type of `parse_fn`. -/
def parseFnReturnType : Nat → Lexer →
    Except ParseError (Option AstExpression × Lexer)
  | 0, l => .error ⟨.OutOfFuel, l.location⟩
  | fuel+1, l =>
    match l.peekToken with
    | .error e => .error (ParseError.ofLexer e)
    | .ok t =>
      if t.kind = .RightArrow then
        match expectToken l TokenKind.isRightArrow with
        | .error e => .error e
        | .ok (_, l1) =>
          match parseExpression fuel l1 with
          | .error e => .error e
          | .ok (returnType, l2) => .ok (some returnType, l2)
      else .ok (none, l)
termination_by structural fuel => fuel

/-- `parse_primary_expression` (`parsing.rs`). -/
def parsePrimaryExpression : Nat → Lexer →
    Except ParseError (AstExpression × Lexer)
  | 0, l => .error ⟨.OutOfFuel, l.location⟩
  | fuel+1, l =>
    match l.nextToken with
    | .error e => .error (ParseError.ofLexer e)
    | .ok (t, l1) =>
      match t.kind with
      | .Integer value => .ok (⟨.Integer value, t.location⟩, l1)
      | .Name name => .ok (⟨.Name name, t.location⟩, l1)
      | .OpenParenthesis =>
        match parseExpression fuel l1 with
        | .error e => .error e
        | .ok (expression, l2) =>
          match expectToken l2 TokenKind.isCloseParenthesis with
          | .error e => .error e
          | .ok (_, l3) => .ok (expression, l3)
      | .OpenBrace => parseBlock fuel l1 (some t.location)
      | kind => .error ⟨.ExpectedExpression kind, t.location⟩
termination_by structural fuel => fuel

/-- `parse_binary_expression` (`parsing.rs`): a primary expression followed
by the precedence-climbing loop. -/
def parseBinaryExpression : Nat → Lexer → Option Nat →
    Except ParseError (AstExpression × Lexer)
  | 0, l, _ => .error ⟨.OutOfFuel, l.location⟩
  | fuel+1, l, parentPrecedence =>
    match parsePrimaryExpression fuel l with
    | .error e => .error e
    | .ok (left, l1) => binLoop fuel left l1 parentPrecedence
termination_by structural fuel => fuel

/-- The `loop` of `parse_binary_expression`: fold operators whose precedence
exceeds the parent's floor (and call-argument lists) into `left`. -/
def binLoop : Nat → AstExpression → Lexer → Option Nat →
    Except ParseError (AstExpression × Lexer)
  | 0, _, l, _ => .error ⟨.OutOfFuel, l.location⟩
  | fuel+1, left, l, parentPrecedence =>
    match l.peekToken with
    | .error e => .error (ParseError.ofLexer e)
    | .ok t =>
      match BinaryOperator.fromTokenKind t.kind with
      | some operator =>
        let precedence := operator.precedence
        if parentPrecedence.any fun pp => precedence ≤ pp then .ok (left, l)
        else
          match l.nextToken with
          | .error e => .error (ParseError.ofLexer e)
          | .ok (opTok, l1) =>
            match parseBinaryExpression fuel l1 (some precedence) with
            | .error e => .error e
            | .ok (right, l2) =>
              binLoop fuel ⟨.Binary left operator right, opTok.location⟩ l2
                parentPrecedence
      | none =>
        if t.kind = .OpenParenthesis then
          match expectToken l TokenKind.isOpenParenthesis with
          | .error e => .error e
          | .ok (openTok, l1) =>
            match parseCallArgs fuel l1 [] with
            | .error e => .error e
            | .ok (arguments, l2) =>
              match expectToken l2 TokenKind.isCloseParenthesis with
              | .error e => .error e
              | .ok (closeTok, l3) =>
                binLoop fuel
                  ⟨.Call left arguments closeTok.location, openTok.location⟩
                  l3 parentPrecedence
        else .ok (left, l)
termination_by structural fuel => fuel

/-- The call-argument loop of `parse_binary_expression`: zero or more
comma-separated expressions until a `)` is seen. -/
def parseCallArgs : Nat → Lexer → List AstExpression →
    Except ParseError (List AstExpression × Lexer)
  | 0, l, _ => .error ⟨.OutOfFuel, l.location⟩
  | fuel+1, l, arguments =>
    match l.peekToken with
    | .error e => .error (ParseError.ofLexer e)
    | .ok t =>
      if t.kind = .CloseParenthesis then .ok (arguments, l)
      else
        match parseExpression fuel l with
        | .error e => .error e
        | .ok (argument, l1) =>
          match l1.peekToken with
          | .error e => .error (ParseError.ofLexer e)
          | .ok t2 =>
            if t2.kind = .CloseParenthesis then
              parseCallArgs fuel l1 (arguments ++ [argument])
            else
              match expectToken l1 TokenKind.isComma with
              | .error e => .error e
              | .ok (_, l2) => parseCallArgs fuel l2 (arguments ++ [argument])
termination_by structural fuel => fuel

/-- `parse_expression` (`parsing.rs`): `parse_binary_expression` with no
parent precedence.  (The original delegates without consuming anything; the
fuel tick here is an embedding artefact.) -/
def parseExpression : Nat → Lexer → Except ParseError (AstExpression × Lexer)
  | 0, l => .error ⟨.OutOfFuel, l.location⟩
  | fuel+1, l => parseBinaryExpression fuel l none
termination_by structural fuel => fuel

/-- `parse_block` (`parsing.rs`). -/
def parseBlock : Nat → Lexer → Option Location →
    Except ParseError (AstExpression × Lexer)
  | 0, l, _ => .error ⟨.OutOfFuel, l.location⟩
  | fuel+1, l, openBraceLocation =>
    match parseBlockOpen l openBraceLocation with
    | .error e => .error e
    | .ok (location, l1) =>
      match parseBlockStmts fuel l1 [] with
      | .error e => .error e
      | .ok (statements, l2) =>
        match expectToken l2 TokenKind.isCloseBrace with
        | .error e => .error e
        | .ok (closeTok, l3) =>
          .ok (⟨.Block statements closeTok.location, location⟩, l3)
termination_by structural fuel => fuel

/-- The statement loop of `parse_block`: statements until a `}` is seen. -/
def parseBlockStmts : Nat → Lexer → List Ast →
    Except ParseError (List Ast × Lexer)
  | 0, l, _ => .error ⟨.OutOfFuel, l.location⟩
  | fuel+1, l, statements =>
    match l.peekToken with
    | .error e => .error (ParseError.ofLexer e)
    | .ok t =>
      if t.kind = .CloseBrace then .ok (statements, l)
      else
        match parseStatement fuel l with
        | .error e => .error e
        | .ok (statement, l1) => parseBlockStmts fuel l1 (statements ++ [statement])
termination_by structural fuel => fuel

/-- The `: <expr>` optional type suffix of `parse_pattern` (textually
duplicated in both arms of the original). -/
def parsePatternType : Nat → Lexer →
    Except ParseError (Option AstExpression × Lexer)
  | 0, l => .error ⟨.OutOfFuel, l.location⟩
  | fuel+1, l =>
    match l.peekToken with
    | .error e => .error (ParseError.ofLexer e)
    | .ok t =>
      if t.kind = .Colon then
        match l.nextToken with
        | .error e => .error (ParseError.ofLexer e)
        | .ok (_, l1) =>
          match parseExpression fuel l1 with
          | .error e => .error e
          | .ok (typ, l2) => .ok (some typ, l2)
      else .ok (none, l)
termination_by structural fuel => fuel

/-- `parse_pattern` (`parsing.rs`). -/
def parsePattern : Nat → Lexer → Bool →
    Except ParseError (AstPattern × Lexer)
  | 0, l, _ => .error ⟨.OutOfFuel, l.location⟩
  | fuel+1, l, requiresLet =>
    match l.nextToken with
    | .error e => .error (ParseError.ofLexer e)
    | .ok (t, l1) =>
      match t.kind with
      | .Let =>
        match expectToken l1 TokenKind.isName with
        | .error e => .error e
        | .ok (nameToken, l2) =>
          match parsePatternType fuel l2 with
          | .error e => .error e
          | .ok (typ, l3) => .ok (⟨.Let nameToken typ, t.location⟩, l3)
      | .Name _ =>
        if requiresLet then .error ⟨.ExpectedPattern t.kind, t.location⟩
        else
          match parsePatternType fuel l1 with
          | .error e => .error e
          | .ok (typ, l2) => .ok (⟨.Let t typ, t.location⟩, l2)
      | kind => .error ⟨.ExpectedPattern kind, t.location⟩
termination_by structural fuel => fuel
end

/-- The `while !EOF` loop of `parse` (`parsing.rs`), with the already parsed
global items accumulated on the left. -/
def parseLoop : Nat → Lexer → List Ast → Except ParseError (List Ast)
  | 0, l, _ => .error ⟨.OutOfFuel, l.location⟩
  | fuel+1, l, statements =>
    match l.peekToken with
    | .error e => .error (ParseError.ofLexer e)
    | .ok t =>
      if t.kind = .EOF then .ok statements
      else
        match parseGlobal fuel l with
        | .error e => .error e
        | .ok (ast, l1) => parseLoop fuel l1 (statements ++ [ast])

/-- `parse` (`parsing.rs`): global items until EOF.  The fuel budget is an
embedding parameter; it is generous enough for the concrete inputs below,
and every universally quantified statement about `parse` holds for any
budget. -/
def parse (filepath : String) (source : String) :
    Except ParseError (List Ast) :=
  parseLoop (8 * (source.length + 1)) (Lexer.new filepath source) []

/-! ### Rendering integer literals

To state the literal round-trip claims we need the textual rendering of a
number in a base, built here from scratch (fuel-based so that it stays
kernel-computable). -/

/-- Base-`b` digits of `n`, least significant first, with explicit fuel. -/
def digitsRevFuel : Nat → Nat → Nat → List Nat
  | 0, _, _ => []
  | fuel+1, b, n => if n = 0 then [] else n % b :: digitsRevFuel fuel b (n / b)

/-- Base-`b` digits of `n`, least significant first (`n` itself is enough
fuel since every division step shrinks the argument). -/
def digitsRev (b n : Nat) : List Nat := digitsRevFuel n b n

/-- Base-`b` digits of `n`, most significant first; `0` renders as the
single digit `0`. -/
def digitsOf (b n : Nat) : List Nat :=
  if n = 0 then [0] else (digitsRev b n).reverse

/-- The character for digit value `d`: `0`-`9` then lower-case `a`-`f`. -/
def digitChar (d : Nat) : Char :=
  if d < 10 then Char.ofNat (48 + d) else Char.ofNat (97 + (d - 10))

/-! ### The pattern well-formedness invariant

`parse_pattern` can only put a `Name` token into the `name_token` field of a
pattern; the predicates below state that this holds everywhere in a tree.
(`pretty_print_ast_pattern` in `pretty_printing.rs` relies on exactly this:
its `else` arm on a non-`Name` pattern token is `unreachable!()`.) -/

mutual
/-- Every pattern inside the node has a `Name` token in `name_token`. -/
def astWf : Ast → Bool
  | ⟨kind, _⟩ => astKindWf kind

def astKindWf : AstKind → Bool
  | .Expression expression => exprWf expression
  | .Let pattern _ value => patWf pattern && exprWf value
  | .Function _ arguments returnType body =>
    patsWf arguments && optExprWf returnType && exprWf body
  | .Return expression => exprWf expression

def exprWf : AstExpression → Bool
  | ⟨kind, _⟩ => exprKindWf kind

def exprKindWf : AstExpressionKind → Bool
  | .Name _ => true
  | .Integer _ => true
  | .Binary left _ right => exprWf left && exprWf right
  | .Block statements _ => astsWf statements
  | .Call operand arguments _ => exprWf operand && exprsWf arguments

def optExprWf : Option AstExpression → Bool
  | none => true
  | some e => exprWf e

def astsWf : List Ast → Bool
  | [] => true
  | a :: rest => astWf a && astsWf rest

def exprsWf : List AstExpression → Bool
  | [] => true
  | e :: rest => exprWf e && exprsWf rest

def patsWf : List AstPattern → Bool
  | [] => true
  | p :: rest => patWf p && patsWf rest

/-- The invariant itself: the `name_token` of the pattern is a `Name`
token, and every pattern inside its type annotation satisfies it too. -/
def patWf : AstPattern → Bool
  | ⟨.Let nameToken typ, _⟩ => nameToken.kind.isName && optExprWf typ
end

/-! ### Small-step evaluation lemmas for the scanner -/

theorem skipWhitespace_nil (loc : Location) : skipWhitespace loc [] = (loc, []) :=
  rfl

theorem skipWhitespace_cons_of_ws {c : Char} (h : rustIsWhitespace c = true)
    (loc : Location) (rest : List Char) :
    skipWhitespace loc (c :: rest) = skipWhitespace (loc.advance c) rest := by
  simp [skipWhitespace, h]

theorem skipWhitespace_cons_of_not_ws {c : Char} (h : rustIsWhitespace c = false)
    (loc : Location) (rest : List Char) :
    skipWhitespace loc (c :: rest) = (loc, c :: rest) := by
  simp [skipWhitespace, h]

theorem lexInt_nil (b v : Nat) (s loc : Location) :
    lexInt b v s loc [] = .ok (v, loc, []) :=
  rfl

theorem lexInt_stop {c : Char} (h : isAsciiAlphanumeric c = false)
    (b v : Nat) (s loc : Location) (rest : List Char) :
    lexInt b v s loc (c :: rest) = .ok (v, loc, c :: rest) := by
  simp [lexInt, h]

theorem lexInt_digitTooLarge {c : Char} {b : Nat}
    (h1 : isAsciiAlphanumeric c = true) (h2 : rustToDigit c b = none)
    (v : Nat) (s loc : Location) (rest : List Char) :
    lexInt b v s loc (c :: rest) = .error ⟨.DigitTooLarge b, loc⟩ := by
  simp [lexInt, h1, h2]

theorem lexInt_step {c : Char} {b d v : Nat}
    (h1 : isAsciiAlphanumeric c = true) (h2 : rustToDigit c b = some d)
    (h4 : v * b + d ≤ u64Max)
    (s loc : Location) (rest : List Char) :
    lexInt b v s loc (c :: rest) = lexInt b (v * b + d) s (loc.advance c) rest := by
  have h3 : v * b ≤ u64Max := le_trans (Nat.le_add_right _ _) h4
  simp [lexInt, h1, h2, h3, h4]

theorem lexInt_overflow {c : Char} {b d v : Nat}
    (h1 : isAsciiAlphanumeric c = true) (h2 : rustToDigit c b = some d)
    (h4 : u64Max < v * b + d)
    (s loc : Location) (rest : List Char) :
    lexInt b v s loc (c :: rest) = .error ⟨.IntegerTooLarge, s⟩ := by
  rcases le_or_lt (v * b) u64Max with h3 | h3
  · simp [lexInt, h1, h2, h3, Nat.not_le.mpr h4]
  · simp [lexInt, h1, h2, Nat.not_le.mpr h3]

theorem nextToken_nil (loc : Location) :
    Lexer.nextToken ⟨loc, []⟩ = .ok (⟨.EOF, loc⟩, ⟨loc, []⟩) :=
  rfl

/-- Scanning a source whose first two characters are `0x`: the prefix fixes
base 16 and the digit loop takes over. -/
theorem nextToken_zeroX (loc : Location) (tail : List Char) :
    Lexer.nextToken ⟨loc, '0' :: 'x' :: tail⟩ =
      match lexInt 16 0 loc ((loc.advance '0').advance 'x') tail with
      | .ok (v, loc3, rest3) => .ok (⟨.Integer v, loc⟩, ⟨loc3, rest3⟩)
      | .error e => .error e :=
  rfl

/-- Scanning a source whose first two characters are `0d`: base 10. -/
theorem nextToken_zeroD (loc : Location) (tail : List Char) :
    Lexer.nextToken ⟨loc, '0' :: 'd' :: tail⟩ =
      match lexInt 10 0 loc ((loc.advance '0').advance 'd') tail with
      | .ok (v, loc3, rest3) => .ok (⟨.Integer v, loc⟩, ⟨loc3, rest3⟩)
      | .error e => .error e :=
  rfl

/-- Scanning a source whose first two characters are `0o`: base 8. -/
theorem nextToken_zeroO (loc : Location) (tail : List Char) :
    Lexer.nextToken ⟨loc, '0' :: 'o' :: tail⟩ =
      match lexInt 8 0 loc ((loc.advance '0').advance 'o') tail with
      | .ok (v, loc3, rest3) => .ok (⟨.Integer v, loc⟩, ⟨loc3, rest3⟩)
      | .error e => .error e :=
  rfl

/-- Scanning a source whose first two characters are `0b`: base 2. -/
theorem nextToken_zeroB (loc : Location) (tail : List Char) :
    Lexer.nextToken ⟨loc, '0' :: 'b' :: tail⟩ =
      match lexInt 2 0 loc ((loc.advance '0').advance 'b') tail with
      | .ok (v, loc3, rest3) => .ok (⟨.Integer v, loc⟩, ⟨loc3, rest3⟩)
      | .error e => .error e :=
  rfl

/-! ### Character-class facts -/

theorem identStart_cases {c : Char} (h : identStart c = true) :
    isAsciiAlphabetic c = true ∨ c = '_' := by
  simpa [identStart] using h

theorem not_ws_of_identStart {c : Char} (h : identStart c = true) :
    rustIsWhitespace c = false := by
  rcases identStart_cases h with h' | h'
  · simp only [isAsciiAlphabetic, Bool.or_eq_true, Bool.and_eq_true,
      decide_eq_true_eq] at h'
    simp only [rustIsWhitespace, Bool.or_eq_false_iff, Bool.and_eq_false_iff,
      decide_eq_false_iff_not]
    omega
  · subst h'; decide

theorem not_ws_of_digit {c : Char} (h : isAsciiDigit c = true) :
    rustIsWhitespace c = false := by
  simp only [isAsciiDigit, Bool.and_eq_true, decide_eq_true_eq] at h
  simp only [rustIsWhitespace, Bool.or_eq_false_iff, Bool.and_eq_false_iff,
    decide_eq_false_iff_not]
  omega

theorem identStart_eq_false_of_digit {c : Char} (h : isAsciiDigit c = true) :
    identStart c = false := by
  cases hs : identStart c
  · rfl
  · exfalso
    rcases identStart_cases hs with h' | h'
    · simp only [isAsciiDigit, Bool.and_eq_true, decide_eq_true_eq] at h
      simp only [isAsciiAlphabetic, Bool.or_eq_true, Bool.and_eq_true,
        decide_eq_true_eq] at h'
      omega
    · subst h'; exact absurd h (by decide)

/-! ### The identifier/keyword arm of `next_token` -/

/-- Unfolding of the identifier loop: it takes the longest
alphanumeric-or-underscore run, advancing the location over it. -/
theorem lexIdent_spec (xs : List Char) (loc : Location) :
    lexIdent loc xs =
      (xs.takeWhile identCont,
       List.foldl Location.advance loc (xs.takeWhile identCont),
       xs.dropWhile identCont) := by
  induction xs generalizing loc with
  | nil => rfl
  | cons c rest ih =>
    cases h : identCont c
    · simp [lexIdent, h, List.takeWhile_cons, List.dropWhile_cons]
    · simp [lexIdent, h, List.takeWhile_cons, List.dropWhile_cons, ih]

/-- Evaluation of `next_token` on an identifier-start character: step
past the punctuation arms into the identifier arm. -/
theorem nextToken_identStart {c : Char} (loc : Location) (rest : List Char)
    (hid : identStart c = true) :
    Lexer.nextToken ⟨loc, c :: rest⟩ =
      .ok (⟨identTokenKind (String.mk (c :: rest.takeWhile identCont)), loc⟩,
        ⟨List.foldl Location.advance (loc.advance c) (rest.takeWhile identCont),
         rest.dropWhile identCont⟩) := by
  have h1 : ¬(c = '(') := by rintro rfl; revert hid; decide
  have h2 : ¬(c = ')') := by rintro rfl; revert hid; decide
  have h3 : ¬(c = '\x7b') := by rintro rfl; revert hid; decide
  have h4 : ¬(c = '\x7d') := by rintro rfl; revert hid; decide
  have h5 : ¬(c = ',') := by rintro rfl; revert hid; decide
  have h6 : ¬(c = ':') := by rintro rfl; revert hid; decide
  have h7 : ¬(c = ';') := by rintro rfl; revert hid; decide
  have h8 : ¬(c = '=') := by rintro rfl; revert hid; decide
  have h9 : ¬(c = '+') := by rintro rfl; revert hid; decide
  have h10 : ¬(c = '-') := by rintro rfl; revert hid; decide
  have h11 : ¬(c = '*') := by rintro rfl; revert hid; decide
  have h12 : ¬(c = '/') := by rintro rfl; revert hid; decide
  simp only [Lexer.nextToken, skipWhitespace_cons_of_not_ws (not_ws_of_identStart hid)]
  rw [if_neg h1, if_neg h2, if_neg h3, if_neg h4, if_neg h5, if_neg h6,
    if_neg h7, if_neg h8, if_neg h9, if_neg h10, if_neg h11, if_neg h12,
    if_pos hid]
  rw [lexIdent_spec]

/-! ### Digit rendering facts -/

theorem digitsRevFuel_zero_n (b : Nat) : ∀ fuel, digitsRevFuel fuel b 0 = [] := by
  intro fuel
  cases fuel <;> simp [digitsRevFuel]

theorem digitsRevFuel_congr {b : Nat} (hb : 2 ≤ b) :
    ∀ (fuel fuel' n : Nat), n ≤ fuel → n ≤ fuel' →
      digitsRevFuel fuel b n = digitsRevFuel fuel' b n := by
  intro fuel
  induction fuel with
  | zero =>
    intro fuel' n h1 _
    have hn : n = 0 := Nat.le_zero.mp h1
    subst hn
    rw [digitsRevFuel_zero_n, digitsRevFuel_zero_n]
  | succ fuel ih =>
    intro fuel' n h1 h2
    by_cases hn : n = 0
    · subst hn
      rw [digitsRevFuel_zero_n, digitsRevFuel_zero_n]
    · obtain ⟨f', rfl⟩ : ∃ f', fuel' = f' + 1 :=
        ⟨fuel' - 1, by omega⟩
      simp only [digitsRevFuel, if_neg hn]
      have hdiv : n / b < n := Nat.div_lt_self (Nat.pos_of_ne_zero hn) hb
      rw [ih f' (n / b) (by omega) (by omega)]

theorem digitsRev_zero (b : Nat) : digitsRev b 0 = [] := rfl

theorem digitsRev_succ {b n : Nat} (hb : 2 ≤ b) (hn : n ≠ 0) :
    digitsRev b n = n % b :: digitsRev b (n / b) := by
  unfold digitsRev
  obtain ⟨m, rfl⟩ : ∃ m, n = m + 1 := ⟨n - 1, by omega⟩
  simp only [digitsRevFuel, if_neg hn]
  have hdiv : (m + 1) / b < m + 1 := Nat.div_lt_self (by omega) hb
  exact congrArg _ (digitsRevFuel_congr hb m ((m + 1) / b) ((m + 1) / b)
    (by omega) (le_refl _))

theorem digitsRev_all_lt {b : Nat} (hb : 2 ≤ b) :
    ∀ n, ∀ d ∈ digitsRev b n, d < b := by
  intro n
  induction n using Nat.strong_induction_on with
  | _ n ih =>
    by_cases hn : n = 0
    · subst hn
      simp [digitsRev_zero]
    · rw [digitsRev_succ hb hn]
      intro d hd
      rcases List.mem_cons.mp hd with rfl | hd
      · exact Nat.mod_lt _ (by omega)
      · exact ih (n / b) (Nat.div_lt_self (Nat.pos_of_ne_zero hn) hb) d hd

theorem digitsRev_foldr {b : Nat} (hb : 2 ≤ b) :
    ∀ n a, List.foldr (fun d acc => acc * b + d) a (digitsRev b n) =
      a * b ^ (digitsRev b n).length + n := by
  intro n
  induction n using Nat.strong_induction_on with
  | _ n ih =>
    intro a
    by_cases hn : n = 0
    · subst hn
      simp [digitsRev_zero]
    · rw [digitsRev_succ hb hn, List.foldr_cons, List.length_cons,
        ih (n / b) (Nat.div_lt_self (Nat.pos_of_ne_zero hn) hb) a, pow_succ]
      have hmod : b * (n / b) + n % b = n := Nat.div_add_mod n b
      have hring : (a * b ^ (digitsRev b (n / b)).length + n / b) * b + n % b
          = a * (b ^ (digitsRev b (n / b)).length * b) + (b * (n / b) + n % b) := by
        ring
      rw [hring, hmod]

theorem horner_digitsOf {b : Nat} (hb : 2 ≤ b) (n : Nat) :
    (digitsOf b n).foldl (fun a d => a * b + d) 0 = n := by
  by_cases hn : n = 0
  · subst hn
    simp [digitsOf]
  · rw [digitsOf, if_neg hn, List.foldl_reverse]
    have := digitsRev_foldr hb n 0
    simpa using this

theorem digitsOf_all_lt {b : Nat} (hb : 2 ≤ b) (n : Nat) :
    ∀ d ∈ digitsOf b n, d < b := by
  by_cases hn : n = 0
  · subst hn
    intro d hd
    simp [digitsOf] at hd
    omega
  · rw [digitsOf, if_neg hn]
    intro d hd
    exact digitsRev_all_lt hb n d (List.mem_reverse.mp hd)

theorem digitsOf_head_pos {b : Nat} (hb : 2 ≤ b) :
    ∀ n, n ≠ 0 → ∃ d ds, digitsOf b n = d :: ds ∧ d ≠ 0 := by
  have aux : ∀ n, n ≠ 0 → ∃ d ds, (digitsRev b n).reverse = d :: ds ∧ d ≠ 0 := by
    intro n
    induction n using Nat.strong_induction_on with
    | _ n ih =>
      intro hn
      rw [digitsRev_succ hb hn, List.reverse_cons]
      by_cases hq : n / b = 0
      · rw [hq, digitsRev_zero]
        refine ⟨n % b, [], by simp, ?_⟩
        have hlt : n < b := (Nat.div_eq_zero_iff (by omega)).mp hq
        rw [Nat.mod_eq_of_lt hlt]
        exact hn
      · obtain ⟨d, ds, hds, hd⟩ :=
          ih (n / b) (Nat.div_lt_self (Nat.pos_of_ne_zero hn) hb) hq
        exact ⟨d, ds ++ [n % b], by rw [hds]; simp, hd⟩
  intro n hn
  rw [digitsOf, if_neg hn]
  exact aux n hn

theorem digitChar_alnum : ∀ d, d < 16 → isAsciiAlphanumeric (digitChar d) = true := by
  decide

theorem digitChar_utf8Size : ∀ d, d < 16 → (digitChar d).utf8Size = 1 := by
  decide

theorem digitChar_ne_newline : ∀ d, d < 16 → ¬(digitChar d = '\n') := by
  decide

theorem digitChar_toDigit : ∀ b, b < 17 → ∀ d, d < b →
    rustToDigit (digitChar d) b = some d := by
  decide

theorem digitChar_isDigit : ∀ d, d < 10 → isAsciiDigit (digitChar d) = true := by
  decide

theorem digitChar_ne_zeroChar : ∀ d, d < 16 → d ≠ 0 → ¬(digitChar d = '0') := by
  decide

theorem advance_digitChar (loc : Location) {d : Nat} (hd : d < 16) :
    loc.advance (digitChar d) =
      ⟨loc.filepath, loc.position + 1, loc.line, loc.column + 1⟩ := by
  simp [Location.advance, digitChar_ne_newline d hd, digitChar_utf8Size d hd]

theorem foldl_digits_ge {b : Nat} (hb : 1 ≤ b) :
    ∀ (ds : List Nat) (a : Nat), a ≤ ds.foldl (fun a d => a * b + d) a := by
  intro ds
  induction ds with
  | nil =>
    intro a
    simp
  | cons d ds ih =>
    intro a
    rw [List.foldl_cons]
    refine le_trans ?_ (ih (a * b + d))
    have : a * 1 ≤ a * b := Nat.mul_le_mul_left a hb
    omega

/-! ### Running the digit loop over a rendered literal -/

theorem lexInt_ok_of_digits {b : Nat} (hb2 : 2 ≤ b) (hb16 : b ≤ 16) :
    ∀ (ds : List Nat) (v : Nat) (s loc : Location) (rest' : List Char),
      (∀ d ∈ ds, d < b) →
      ds.foldl (fun a d => a * b + d) v ≤ u64Max →
      (∀ c', rest'.head? = some c' → isAsciiAlphanumeric c' = false) →
      lexInt b v s loc (List.map digitChar ds ++ rest') =
        .ok (ds.foldl (fun a d => a * b + d) v,
          ⟨loc.filepath, loc.position + ds.length, loc.line,
            loc.column + ds.length⟩,
          rest') := by
  intro ds
  induction ds with
  | nil =>
    intro v s loc rest' _ _ hstop
    cases loc
    match rest' with
    | [] => simpa using lexInt_nil b v s _
    | c' :: rest'' => simpa using lexInt_stop (hstop c' rfl) b v s _ rest''
  | cons d ds ih =>
    intro v s loc rest' hlt hle hstop
    have hd : d < b := hlt d (List.mem_cons_self d ds)
    have hd16 : d < 16 := lt_of_lt_of_le hd hb16
    have hdig : rustToDigit (digitChar d) b = some d :=
      digitChar_toDigit b (by omega) d hd
    have halnum : isAsciiAlphanumeric (digitChar d) = true := digitChar_alnum d hd16
    rw [List.foldl_cons] at hle
    have hbound : v * b + d ≤ u64Max :=
      le_trans (foldl_digits_ge (by omega) ds (v * b + d)) hle
    rw [List.map_cons, List.cons_append, lexInt_step halnum hdig hbound,
      advance_digitChar loc hd16,
      ih (v * b + d) s _ rest' (fun x hx => hlt x (List.mem_cons_of_mem d hx))
        hle hstop]
    have h1 : loc.position + 1 + ds.length = loc.position + (d :: ds).length := by
      simp
      omega
    have h2 : loc.column + 1 + ds.length = loc.column + (d :: ds).length := by
      simp
      omega
    rw [List.foldl_cons, h1, h2]

theorem lexInt_overflow_of_digits {b : Nat} (hb2 : 2 ≤ b) (hb16 : b ≤ 16) :
    ∀ (ds : List Nat) (v : Nat) (s loc : Location) (rest' : List Char),
      (∀ d ∈ ds, d < b) → v ≤ u64Max →
      u64Max < ds.foldl (fun a d => a * b + d) v →
      lexInt b v s loc (List.map digitChar ds ++ rest') =
        .error ⟨.IntegerTooLarge, s⟩ := by
  intro ds
  induction ds with
  | nil =>
    intro v s loc rest' _ hv hgt
    simp at hgt
    omega
  | cons d ds ih =>
    intro v s loc rest' hlt hv hgt
    have hd : d < b := hlt d (List.mem_cons_self d ds)
    have hd16 : d < 16 := lt_of_lt_of_le hd hb16
    have hdig : rustToDigit (digitChar d) b = some d :=
      digitChar_toDigit b (by omega) d hd
    have halnum : isAsciiAlphanumeric (digitChar d) = true := digitChar_alnum d hd16
    rw [List.foldl_cons] at hgt
    by_cases hov : v * b + d ≤ u64Max
    · rw [List.map_cons, List.cons_append, lexInt_step halnum hdig hov]
      exact ih (v * b + d) s _ rest'
        (fun x hx => hlt x (List.mem_cons_of_mem d hx)) hov hgt
    · rw [List.map_cons, List.cons_append,
        lexInt_overflow halnum hdig (Nat.not_le.mp hov)]

theorem lexInt_digitTooLarge_of_digits {b : Nat} (hb2 : 2 ≤ b) (hb16 : b ≤ 16) :
    ∀ (ds : List Nat) (v : Nat) (s loc : Location) (c : Char) (suffix : List Char),
      (∀ d ∈ ds, d < b) →
      ds.foldl (fun a d => a * b + d) v ≤ u64Max →
      isAsciiAlphanumeric c = true → rustToDigit c b = none →
      lexInt b v s loc (List.map digitChar ds ++ c :: suffix) =
        .error ⟨.DigitTooLarge b,
          ⟨loc.filepath, loc.position + ds.length, loc.line,
            loc.column + ds.length⟩⟩ := by
  intro ds
  induction ds with
  | nil =>
    intro v s loc c suffix _ _ hc hnone
    cases loc
    simpa using lexInt_digitTooLarge hc hnone v s _ suffix
  | cons d ds ih =>
    intro v s loc c suffix hlt hle hc hnone
    have hd : d < b := hlt d (List.mem_cons_self d ds)
    have hd16 : d < 16 := lt_of_lt_of_le hd hb16
    have hdig : rustToDigit (digitChar d) b = some d :=
      digitChar_toDigit b (by omega) d hd
    have halnum : isAsciiAlphanumeric (digitChar d) = true := digitChar_alnum d hd16
    rw [List.foldl_cons] at hle
    have hbound : v * b + d ≤ u64Max :=
      le_trans (foldl_digits_ge (by omega) ds (v * b + d)) hle
    rw [List.map_cons, List.cons_append, lexInt_step halnum hdig hbound,
      advance_digitChar loc hd16,
      ih (v * b + d) s _ c suffix (fun x hx => hlt x (List.mem_cons_of_mem d hx))
        hle hc hnone]
    have h1 : loc.position + 1 + ds.length = loc.position + (d :: ds).length := by
      simp
      omega
    have h2 : loc.column + 1 + ds.length = loc.column + (d :: ds).length := by
      simp
      omega
    rw [h1, h2]

/-- Evaluation of `next_token` on a nonzero decimal digit: step past the
punctuation and identifier arms into the integer arm, with base 10 and the
first digit's value as the initial accumulator. -/
theorem nextToken_digitStart {c : Char} (loc : Location) (rest : List Char)
    (hd : isAsciiDigit c = true) (h0 : ¬(c = '0')) :
    Lexer.nextToken ⟨loc, c :: rest⟩ =
      match lexInt 10 ((rustToDigit c 10).getD 0) loc (loc.advance c) rest with
      | .ok (v, loc3, rest3) => .ok (⟨.Integer v, loc⟩, ⟨loc3, rest3⟩)
      | .error e => .error e := by
  have h1 : ¬(c = '(') := by rintro rfl; revert hd; decide
  have h2 : ¬(c = ')') := by rintro rfl; revert hd; decide
  have h3 : ¬(c = '\x7b') := by rintro rfl; revert hd; decide
  have h4 : ¬(c = '\x7d') := by rintro rfl; revert hd; decide
  have h5 : ¬(c = ',') := by rintro rfl; revert hd; decide
  have h6 : ¬(c = ':') := by rintro rfl; revert hd; decide
  have h7 : ¬(c = ';') := by rintro rfl; revert hd; decide
  have h8 : ¬(c = '=') := by rintro rfl; revert hd; decide
  have h9 : ¬(c = '+') := by rintro rfl; revert hd; decide
  have h10 : ¬(c = '-') := by rintro rfl; revert hd; decide
  have h11 : ¬(c = '*') := by rintro rfl; revert hd; decide
  have h12 : ¬(c = '/') := by rintro rfl; revert hd; decide
  have hident : ¬(identStart c = true) := by
    rw [identStart_eq_false_of_digit hd]
    exact Bool.false_ne_true
  simp only [Lexer.nextToken, skipWhitespace_cons_of_not_ws (not_ws_of_digit hd)]
  rw [if_neg h1, if_neg h2, if_neg h3, if_neg h4, if_neg h5, if_neg h6,
    if_neg h7, if_neg h8, if_neg h9, if_neg h10, if_neg h11, if_neg h12,
    if_neg hident, if_pos hd, if_neg h0]

/-! ### Which token's location each parser production records -/

theorem peekToken_ok_exists {l : Lexer} {t : Token}
    (h : l.peekToken = .ok t) : ∃ l₁, l.nextToken = .ok (t, l₁) := by
  unfold Lexer.peekToken Lexer.clone at h
  cases hnt : l.nextToken with
  | error e =>
    rw [show (⟨l.location, l.rest⟩ : Lexer) = l from rfl, hnt] at h
    cases h
  | ok p =>
    rw [show (⟨l.location, l.rest⟩ : Lexer) = l from rfl, hnt] at h
    cases h
    exact ⟨p.2, rfl⟩

/-- `parse_block`, given an already consumed `{`'s location, returns a node
carrying exactly that location. -/
theorem parseBlock_location_some {fuel : Nat} {l : Lexer} {loc : Location}
    {e : AstExpression} {l' : Lexer}
    (h : parseBlock fuel l (some loc) = .ok (e, l')) : e.location = loc := by
  cases fuel with
  | zero => exact absurd h (by simp [parseBlock])
  | succ fuel =>
    simp only [parseBlock, parseBlockOpen] at h
    split at h
    · cases h
    · split at h
      · cases h
      · cases h
        rfl

/-- `parse_fn` tags the function node with the `fn` location it was
handed. -/
theorem parseFn_location {fuel : Nat} {l : Lexer} {fnLocation : Location}
    {a : Ast} {l' : Lexer}
    (h : parseFn fuel l fnLocation = .ok (a, l')) : a.location = fnLocation := by
  cases fuel with
  | zero => exact absurd h (by simp [parseFn])
  | succ fuel =>
    simp only [parseFn] at h
    split at h
    · cases h
    · split at h
      · cases h
      · split at h
        · cases h
        · split at h
          · cases h
          · split at h
            · cases h
            · split at h
              · cases h
              · cases h
                rfl

/-- `parse_pattern` tags the pattern with the location of its first token
(the `let` keyword or the bare name). -/
theorem parsePattern_location {fuel : Nat} {l : Lexer} {rl : Bool}
    {p : AstPattern} {l' : Lexer}
    (h : parsePattern fuel l rl = .ok (p, l')) :
    ∃ t l₁, l.nextToken = .ok (t, l₁) ∧ p.location = t.location := by
  cases fuel with
  | zero => exact absurd h (by simp [parsePattern])
  | succ fuel =>
    simp only [parsePattern] at h
    split at h
    · cases h
    · rename_i t l₁ heq
      refine ⟨t, l₁, by rw [heq], ?_⟩
      split at h
      · split at h
        · cases h
        · split at h
          · cases h
          · cases h
            rfl
      · split at h
        · cases h
        · split at h
          · cases h
          · cases h
            rfl
      · cases h

/-- `parse_primary_expression` either returns a node carrying its first
token's location, or that first token was an opening parenthesis (whose
location is deliberately discarded in favour of the inner expression). -/
theorem parsePrimaryExpression_location {fuel : Nat} {l : Lexer}
    {e : AstExpression} {l' : Lexer}
    (h : parsePrimaryExpression fuel l = .ok (e, l')) :
    ∃ t l₁, l.nextToken = .ok (t, l₁) ∧
      (e.location = t.location ∨ t.kind = .OpenParenthesis) := by
  cases fuel with
  | zero => exact absurd h (by simp [parsePrimaryExpression])
  | succ fuel =>
    simp only [parsePrimaryExpression] at h
    split at h
    · cases h
    · rename_i t l₁ heq
      refine ⟨t, l₁, by rw [heq], ?_⟩
      split at h
      · cases h
        exact .inl rfl
      · cases h
        exact .inl rfl
      · rename_i hk
        exact .inr hk
      · rename_i hk
        exact .inl ((parseBlock_location_some h).trans rfl)
      · cases h

/-- `parse_statement` tags `let`/`return`/expression statements with the
scanner's cursor location at entry (which precedes the statement's first
token when whitespace intervenes), and nested `fn` statements with the `fn`
token's location. -/
theorem parseStatement_location {fuel : Nat} {l : Lexer} {a : Ast} {l' : Lexer}
    (h : parseStatement fuel l = .ok (a, l')) :
    a.location = l.location ∨
      ∃ t, l.peekToken = .ok t ∧ t.kind = .Fn ∧ a.location = t.location := by
  cases fuel with
  | zero => exact absurd h (by simp [parseStatement])
  | succ fuel =>
    simp only [parseStatement] at h
    split at h
    · cases h
    · rename_i t heq
      split at h
      · -- `fn` branch
        rename_i hk
        simp only [expectToken] at h
        obtain ⟨l₁, hnt⟩ := peekToken_ok_exists heq
        rw [hnt] at h
        simp only [TokenKind.isName] at h
        rw [show TokenKind.isFn t.kind = true from by rw [hk]; rfl] at h
        simp only [if_pos] at h
        exact .inr ⟨t, heq, hk, parseFn_location h⟩
      · -- `let` branch
        split at h
        · cases h
        · split at h
          · cases h
          · split at h
            · cases h
            · split at h
              · cases h
              · cases h
                exact .inl rfl
      · -- `return` branch
        split at h
        · cases h
        · split at h
          · cases h
          · split at h
            · cases h
            · cases h
              exact .inl rfl
      · -- expression-statement branch
        split at h
        · cases h
        · split at h
          · cases h
          · cases h
            exact .inl rfl

/-! ### The parser only builds patterns around `Name` tokens -/

theorem expectToken_ok_pred {l : Lexer} {p : TokenKind → Bool} {tok : Token}
    {l' : Lexer} (h : expectToken l p = .ok (tok, l')) : p tok.kind = true := by
  unfold expectToken at h
  split at h
  · split at h
    · rename_i hcond
      cases h
      exact hcond
    · cases h
  · cases h

theorem astsWf_append {acc : List Ast} {a : Ast} (hacc : astsWf acc = true)
    (ha : astWf a = true) : astsWf (acc ++ [a]) = true := by
  induction acc with
  | nil => simpa [astsWf] using ha
  | cons x xs ih =>
    rw [List.cons_append]
    simp only [astsWf, Bool.and_eq_true] at hacc ⊢
    exact ⟨hacc.1, ih hacc.2⟩

theorem patsWf_append {acc : List AstPattern} {a : AstPattern}
    (hacc : patsWf acc = true) (ha : patWf a = true) :
    patsWf (acc ++ [a]) = true := by
  induction acc with
  | nil => simpa [patsWf] using ha
  | cons x xs ih =>
    rw [List.cons_append]
    simp only [patsWf, Bool.and_eq_true] at hacc ⊢
    exact ⟨hacc.1, ih hacc.2⟩

theorem exprsWf_append {acc : List AstExpression} {a : AstExpression}
    (hacc : exprsWf acc = true) (ha : exprWf a = true) :
    exprsWf (acc ++ [a]) = true := by
  induction acc with
  | nil => simpa [exprsWf] using ha
  | cons x xs ih =>
    rw [List.cons_append]
    simp only [exprsWf, Bool.and_eq_true] at hacc ⊢
    exact ⟨hacc.1, ih hacc.2⟩

/-- Every parser production preserves/establishes the pattern invariant:
whatever a parse function successfully returns is built exclusively from
patterns whose `name_token` is a `Name` token.  One conjunct per function
of the mutual block, proved by induction on the fuel. -/
theorem parserWf : ∀ fuel : Nat,
    (∀ (l : Lexer) (r : Ast × Lexer),
      parseStatement fuel l = .ok r → astWf r.1 = true) ∧
    (∀ (l : Lexer) (loc : Location) (r : Ast × Lexer),
      parseFn fuel l loc = .ok r → astWf r.1 = true) ∧
    (∀ (l : Lexer) (acc : List AstPattern) (r : List AstPattern × Lexer),
      parseFnArgs fuel l acc = .ok r → patsWf acc = true → patsWf r.1 = true) ∧
    (∀ (l : Lexer) (r : Option AstExpression × Lexer),
      parseFnReturnType fuel l = .ok r → optExprWf r.1 = true) ∧
    (∀ (l : Lexer) (r : AstExpression × Lexer),
      parsePrimaryExpression fuel l = .ok r → exprWf r.1 = true) ∧
    (∀ (l : Lexer) (pp : Option Nat) (r : AstExpression × Lexer),
      parseBinaryExpression fuel l pp = .ok r → exprWf r.1 = true) ∧
    (∀ (left : AstExpression) (l : Lexer) (pp : Option Nat)
        (r : AstExpression × Lexer),
      binLoop fuel left l pp = .ok r → exprWf left = true → exprWf r.1 = true) ∧
    (∀ (l : Lexer) (acc : List AstExpression) (r : List AstExpression × Lexer),
      parseCallArgs fuel l acc = .ok r → exprsWf acc = true → exprsWf r.1 = true) ∧
    (∀ (l : Lexer) (r : AstExpression × Lexer),
      parseExpression fuel l = .ok r → exprWf r.1 = true) ∧
    (∀ (l : Lexer) (ob : Option Location) (r : AstExpression × Lexer),
      parseBlock fuel l ob = .ok r → exprWf r.1 = true) ∧
    (∀ (l : Lexer) (acc : List Ast) (r : List Ast × Lexer),
      parseBlockStmts fuel l acc = .ok r → astsWf acc = true → astsWf r.1 = true) ∧
    (∀ (l : Lexer) (r : Option AstExpression × Lexer),
      parsePatternType fuel l = .ok r → optExprWf r.1 = true) ∧
    (∀ (l : Lexer) (rl : Bool) (r : AstPattern × Lexer),
      parsePattern fuel l rl = .ok r → patWf r.1 = true) := by
  intro fuel
  induction fuel with
  | zero =>
    refine ⟨fun l r h => absurd h (by simp [parseStatement]),
      fun l loc r h => absurd h (by simp [parseFn]),
      fun l acc r h => absurd h (by simp [parseFnArgs]),
      fun l r h => absurd h (by simp [parseFnReturnType]),
      fun l r h => absurd h (by simp [parsePrimaryExpression]),
      fun l pp r h => absurd h (by simp [parseBinaryExpression]),
      fun left l pp r h => absurd h (by simp [binLoop]),
      fun l acc r h => absurd h (by simp [parseCallArgs]),
      fun l r h => absurd h (by simp [parseExpression]),
      fun l ob r h => absurd h (by simp [parseBlock]),
      fun l acc r h => absurd h (by simp [parseBlockStmts]),
      fun l r h => absurd h (by simp [parsePatternType]),
      fun l rl r h => absurd h (by simp [parsePattern])⟩
  | succ fuel ih =>
    obtain ⟨ihStmt, ihFn, ihFnArgs, ihFnRT, ihPrim, ihBin, ihBinLoop, ihCall,
      ihExpr, ihBlock, ihBlockStmts, ihPatTy, ihPat⟩ := ih
    refine ⟨?_, ?_, ?_, ?_, ?_, ?_, ?_, ?_, ?_, ?_, ?_, ?_, ?_⟩
    · -- parseStatement
      intro l r h
      simp only [parseStatement] at h
      split at h
      · cases h
      · split at h
        · -- fn
          split at h
          · cases h
          · exact ihFn _ _ _ h
        · -- let
          split at h
          · cases h
          · rename_i pat l1 hpat
            split at h
            · cases h
            · split at h
              · cases h
              · rename_i value l3 hvalue
                split at h
                · cases h
                · cases h
                  simp only [astWf, astKindWf, Bool.and_eq_true]
                  exact ⟨ihPat _ _ _ hpat, ihExpr _ _ hvalue⟩
        · -- return
          split at h
          · cases h
          · split at h
            · cases h
            · rename_i expression l2 hexpr
              split at h
              · cases h
              · cases h
                simp only [astWf, astKindWf]
                exact ihExpr _ _ hexpr
        · -- expression statement
          split at h
          · cases h
          · rename_i expression l1 hexpr
            split at h
            · cases h
            · cases h
              simp only [astWf, astKindWf]
              exact ihExpr _ _ hexpr
    · -- parseFn
      intro l fnLocation r h
      simp only [parseFn] at h
      split at h
      · cases h
      · split at h
        · cases h
        · split at h
          · cases h
          · rename_i arguments l3 hargs
            split at h
            · cases h
            · split at h
              · cases h
              · rename_i returnType l5 hrt
                split at h
                · cases h
                · rename_i body l6 hbody
                  cases h
                  simp only [astWf, astKindWf, Bool.and_eq_true]
                  exact ⟨⟨ihFnArgs _ _ _ hargs rfl, ihFnRT _ _ hrt⟩,
                    ihBlock _ _ _ hbody⟩
    · -- parseFnArgs
      intro l acc r h hacc
      simp only [parseFnArgs] at h
      split at h
      · cases h
      · split at h
        · cases h
          exact hacc
        · split at h
          · cases h
          · rename_i pat l1 hpat
            split at h
            · cases h
            · split at h
              · exact ihFnArgs _ _ _ h (patsWf_append hacc (ihPat _ _ _ hpat))
              · split at h
                · cases h
                · exact ihFnArgs _ _ _ h (patsWf_append hacc (ihPat _ _ _ hpat))
    · -- parseFnReturnType
      intro l r h
      simp only [parseFnReturnType] at h
      split at h
      · cases h
      · split at h
        · split at h
          · cases h
          · split at h
            · cases h
            · rename_i rt l2 hrt
              cases h
              simp only [optExprWf]
              exact ihExpr _ _ hrt
        · cases h
          rfl
    · -- parsePrimaryExpression
      intro l r h
      simp only [parsePrimaryExpression] at h
      split at h
      · cases h
      · split at h
        · cases h
          rfl
        · cases h
          rfl
        · split at h
          · cases h
          · rename_i expression l2 hexpr
            split at h
            · cases h
            · cases h
              exact ihExpr _ (expression, l2) hexpr
        · exact ihBlock _ _ _ h
        · cases h
    · -- parseBinaryExpression
      intro l pp r h
      simp only [parseBinaryExpression] at h
      split at h
      · cases h
      · rename_i left l1 hleft
        exact ihBinLoop _ _ _ _ h (ihPrim _ _ hleft)
    · -- binLoop
      intro left l pp r h hleft
      simp only [binLoop] at h
      split at h
      · cases h
      · split at h
        · -- binary operator
          split at h
          · cases h
            exact hleft
          · split at h
            · cases h
            · rename_i opTok l1 hnt
              split at h
              · cases h
              · rename_i right l2 hright
                refine ihBinLoop _ _ _ _ h ?_
                simp only [exprWf, exprKindWf, Bool.and_eq_true]
                exact ⟨hleft, ihBin _ _ _ hright⟩
        · -- call or stop
          split at h
          · split at h
            · cases h
            · rename_i openTok l1 hopen
              split at h
              · cases h
              · rename_i arguments l2 hargs
                split at h
                · cases h
                · rename_i closeTok l3 hclose
                  refine ihBinLoop _ _ _ _ h ?_
                  simp only [exprWf, exprKindWf, Bool.and_eq_true]
                  exact ⟨hleft, ihCall _ _ _ hargs rfl⟩
          · cases h
            exact hleft
    · -- parseCallArgs
      intro l acc r h hacc
      simp only [parseCallArgs] at h
      split at h
      · cases h
      · split at h
        · cases h
          exact hacc
        · split at h
          · cases h
          · rename_i argument l1 harg
            split at h
            · cases h
            · split at h
              · exact ihCall _ _ _ h (exprsWf_append hacc (ihExpr _ _ harg))
              · split at h
                · cases h
                · exact ihCall _ _ _ h (exprsWf_append hacc (ihExpr _ _ harg))
    · -- parseExpression
      intro l r h
      simp only [parseExpression] at h
      exact ihBin _ _ _ h
    · -- parseBlock
      intro l ob r h
      simp only [parseBlock] at h
      split at h
      · cases h
      · split at h
        · cases h
        · rename_i statements l2 hstmts
          split at h
          · cases h
          · cases h
            simp only [exprWf, exprKindWf]
            exact ihBlockStmts _ _ _ hstmts rfl
    · -- parseBlockStmts
      intro l acc r h hacc
      simp only [parseBlockStmts] at h
      split at h
      · cases h
      · split at h
        · cases h
          exact hacc
        · split at h
          · cases h
          · rename_i statement l1 hstmt
            exact ihBlockStmts _ _ _ h (astsWf_append hacc (ihStmt _ _ hstmt))
    · -- parsePatternType
      intro l r h
      simp only [parsePatternType] at h
      split at h
      · cases h
      · split at h
        · split at h
          · cases h
          · split at h
            · cases h
            · rename_i typ l2 htyp
              cases h
              simp only [optExprWf]
              exact ihExpr _ _ htyp
        · cases h
          rfl
    · -- parsePattern
      intro l rl r h
      simp only [parsePattern] at h
      split at h
      · cases h
      · rename_i t l1 hnt
        split at h
        · -- let-pattern
          split at h
          · cases h
          · rename_i nameToken l2 hname
            split at h
            · cases h
            · rename_i typ l3 htyp
              cases h
              simp only [patWf, Bool.and_eq_true]
              exact ⟨expectToken_ok_pred hname, ihPatTy _ _ htyp⟩
        · -- bare name pattern
          rename_i text hk
          split at h
          · cases h
          · split at h
            · cases h
            · rename_i typ l2 htyp
              cases h
              simp only [patWf, Bool.and_eq_true]
              refine ⟨?_, ihPatTy _ _ htyp⟩
              rw [hk]
              rfl
        · cases h

theorem parseGlobal_wf {fuel : Nat} {l : Lexer} {r : Ast × Lexer}
    (h : parseGlobal fuel l = .ok r) : astWf r.1 = true := by
  cases fuel with
  | zero => exact absurd h (by simp [parseGlobal])
  | succ fuel =>
    simp only [parseGlobal] at h
    split at h
    · cases h
    · split at h
      · exact (parserWf fuel).2.1 _ _ _ h
      · cases h

theorem parseLoop_wf :
    ∀ (fuel : Nat) (l : Lexer) (acc asts : List Ast),
      parseLoop fuel l acc = .ok asts → astsWf acc = true →
      astsWf asts = true := by
  intro fuel
  induction fuel with
  | zero =>
    intro l acc asts h
    exact absurd h (by simp [parseLoop])
  | succ fuel ih =>
    intro l acc asts h hacc
    simp only [parseLoop] at h
    split at h
    · cases h
    · split at h
      · cases h
        exact hacc
      · split at h
        · cases h
        · rename_i ast l1 hglob
          exact ih _ _ _ h (astsWf_append hacc (parseGlobal_wf hglob))

/-! ### Claims -/

/-- C1: binary-expression parsing is left-associative among operators of
equal precedence, and `*`/`/` (precedence 2) bind tighter than `+`/`-`
(precedence 1): `"1 + 2 * 3"` parses to
`Binary(Integer 1, Add, Binary(Integer 2, Multiply, Integer 3))` and
`"1 - 2 - 3"` parses to
`Binary(Binary(Integer 1, Subtract, Integer 2), Subtract, Integer 3)`.
(The equalities below also pin down every location: a `Binary` node is
tagged with its operator token's location.) -/
theorem parse_binary_precedence_and_left_assoc :
    ∀ fp : String,
    parseExpression 99 (Lexer.new fp ("1 + 2 * 3")) =
      .ok (⟨.Binary ⟨.Integer 1, ⟨fp, 0, 1, 1⟩⟩ .Add
              ⟨.Binary ⟨.Integer 2, ⟨fp, 4, 1, 5⟩⟩ .Multiply
                  ⟨.Integer 3, ⟨fp, 8, 1, 9⟩⟩,
                ⟨fp, 6, 1, 7⟩⟩,
            ⟨fp, 2, 1, 3⟩⟩,
          ⟨⟨fp, 9, 1, 10⟩, []⟩) ∧
    parseExpression 99 (Lexer.new fp ("1 - 2 - 3")) =
      .ok (⟨.Binary ⟨.Binary ⟨.Integer 1, ⟨fp, 0, 1, 1⟩⟩ .Subtract
                  ⟨.Integer 2, ⟨fp, 4, 1, 5⟩⟩,
                ⟨fp, 2, 1, 3⟩⟩ .Subtract
              ⟨.Integer 3, ⟨fp, 8, 1, 9⟩⟩,
            ⟨fp, 6, 1, 7⟩⟩,
          ⟨⟨fp, 9, 1, 10⟩, []⟩) :=
  fun _ => ⟨rfl, rfl⟩

/-- C4: `peek_token` works on a disposable clone of the scanner and so
leaves the scanner's observable state (location cursor and remaining
character stream) untouched.  In this embedding all state passing is
explicit: `peekToken` takes the scanner by value and returns only a token,
so the caller's scanner is unchanged by construction; the two equations
below carry the remaining content.  The first says the `Clone`
implementation is a faithful field-by-field copy, the second that the token
computed on the clone is exactly the token `next_token` would produce (with
the resulting scanner state discarded), so any number of `peek_token` calls
followed by one `next_token` yields the same token and the same final state
as the single direct `next_token` call. -/
theorem peekToken_pure_and_agrees_with_nextToken :
    ∀ l : Lexer, l.clone = l ∧ l.peekToken = Except.map Prod.fst l.nextToken :=
  fun _ => ⟨rfl, rfl⟩

/-- C7: parsing `"fn ("` (a function definition missing its name) fails
with `UnexpectedToken` at the `(` token (byte 3, line 1, column 4); it is a
structured error, not a panic and not a partial or empty success. -/
theorem parse_fn_missing_name_unexpectedToken :
    ∀ fp : String,
    parse fp ("fn (") =
      .error ⟨.UnexpectedToken .OpenParenthesis, ⟨fp, 3, 1, 4⟩⟩ :=
  fun _ => rfl

/-- C8: a base prefix followed by no digits at all (`0x`, `0d`, `0o`, `0b`
at end of input or followed by any non-alphanumeric character) scans
successfully to an `Integer` token with value 0; the empty digit sequence
is not an error. -/
theorem base_prefix_without_digits_scans_to_zero :
    ∀ (fp pr : String), pr ∈ [("0x" : String), "0d", "0o", "0b"] →
      (Except.map (fun p => p.1.kind) (Lexer.new fp pr).nextToken
          = .ok (.Integer 0)) ∧
      ∀ c : Char, isAsciiAlphanumeric c = false →
        Except.map (fun p => p.1.kind)
            (Lexer.new fp (String.mk (pr.data ++ [c]))).nextToken
          = .ok (.Integer 0) := by
  intro fp pr hpr
  have hstep : ∀ c : Char, isAsciiAlphanumeric c = false →
      ∀ (loc loc2 : Location) (b : Nat),
      Except.map (fun p : Token × Lexer => p.1.kind)
          (match lexInt b 0 loc loc2 [c] with
            | .ok (v, loc3, rest3) =>
                Except.ok (⟨.Integer v, loc⟩, (⟨loc3, rest3⟩ : Lexer))
            | .error e => .error e)
        = .ok (.Integer 0) := by
    intro c hc loc loc2 b
    rw [lexInt_stop hc]
    rfl
  simp only [List.mem_cons, List.not_mem_nil, or_false] at hpr
  rcases hpr with rfl | rfl | rfl | rfl
  · exact ⟨rfl, fun c hc => by rw [show Lexer.new fp (String.mk (("0x").data ++ [c]))
      = ⟨⟨fp, 0, 1, 1⟩, '0' :: 'x' :: [c]⟩ from rfl, nextToken_zeroX]; exact hstep c hc _ _ _⟩
  · exact ⟨rfl, fun c hc => by rw [show Lexer.new fp (String.mk (("0d").data ++ [c]))
      = ⟨⟨fp, 0, 1, 1⟩, '0' :: 'd' :: [c]⟩ from rfl, nextToken_zeroD]; exact hstep c hc _ _ _⟩
  · exact ⟨rfl, fun c hc => by rw [show Lexer.new fp (String.mk (("0o").data ++ [c]))
      = ⟨⟨fp, 0, 1, 1⟩, '0' :: 'o' :: [c]⟩ from rfl, nextToken_zeroO]; exact hstep c hc _ _ _⟩
  · exact ⟨rfl, fun c hc => by rw [show Lexer.new fp (String.mk (("0b").data ++ [c]))
      = ⟨⟨fp, 0, 1, 1⟩, '0' :: 'b' :: [c]⟩ from rfl, nextToken_zeroB]; exact hstep c hc _ _ _⟩

/-- Helper for the literal round trip: scanning `0` `p` `digits-of-n`
(where `p` is one of the four base letters, supplied through the
evaluation lemma `hnt`) yields `Integer n`. -/
theorem scan_prefixed_literal_aux (fp : String) (n b : Nat) (hb2 : 2 ≤ b)
    (hb16 : b ≤ 16) (hn : n ≤ u64Max) (p : Char)
    (hnt : ∀ (loc : Location) (tail : List Char),
      Lexer.nextToken ⟨loc, '0' :: p :: tail⟩ =
        match lexInt b 0 loc ((loc.advance '0').advance p) tail with
        | .ok (v, loc3, rest3) => .ok (⟨.Integer v, loc⟩, ⟨loc3, rest3⟩)
        | .error e => .error e)
    (hp1 : (Location.advance ⟨fp, 0, 1, 1⟩ '0').advance p = ⟨fp, 2, 1, 3⟩) :
    Lexer.nextToken ⟨⟨fp, 0, 1, 1⟩, '0' :: p :: List.map digitChar (digitsOf b n)⟩ =
      .ok (⟨.Integer n, ⟨fp, 0, 1, 1⟩⟩,
        ⟨⟨fp, 2 + (digitsOf b n).length, 1, 3 + (digitsOf b n).length⟩, []⟩) := by
  rw [hnt, hp1,
    show List.map digitChar (digitsOf b n)
        = List.map digitChar (digitsOf b n) ++ [] from (List.append_nil _).symm,
    lexInt_ok_of_digits hb2 hb16 (digitsOf b n) 0 _ _ [] (digitsOf_all_lt hb2 n)
      (by rw [horner_digitsOf hb2 n]; exact hn) (fun c' hc' => by cases hc'),
    horner_digitsOf hb2 n]

/-- C2: for every `u64` value `n` and every supported base prefix (none for
base 10, `0x` for 16, `0d` for 10, `0o` for 8, `0b` for 2), scanning the
textual rendering of `n` in that base yields a single `Integer` token (at
the literal's start) whose payload is exactly `n`, consuming the entire
input (so the next token is `EOF`). -/
theorem scan_rendered_literal_yields_value :
    ∀ (fp : String) (n : Nat), n ≤ u64Max →
    ∀ pb : String × Nat,
      pb ∈ [(("" : String), 10), (("0x" : String), 16), (("0d" : String), 10),
            (("0o" : String), 8), (("0b" : String), 2)] →
      ∃ locEnd : Location,
        Lexer.nextToken (Lexer.new fp
            (String.mk (pb.1.data ++ List.map digitChar (digitsOf pb.2 n)))) =
          .ok (⟨.Integer n, ⟨fp, 0, 1, 1⟩⟩, ⟨locEnd, []⟩) := by
  intro fp n hn pb hpb
  simp only [List.mem_cons, List.not_mem_nil, or_false] at hpb
  rcases hpb with rfl | rfl | rfl | rfl | rfl
  · by_cases hn0 : n = 0
    · subst hn0
      exact ⟨⟨fp, 1, 1, 2⟩, rfl⟩
    · obtain ⟨d, ds, hds, hd0⟩ := digitsOf_head_pos (b := 10) (by omega) n hn0
      have hall : ∀ x ∈ digitsOf 10 n, x < 10 := digitsOf_all_lt (by omega) n
      rw [hds] at hall
      have hdlt : d < 10 := hall d (List.mem_cons_self d ds)
      have hdslt : ∀ x ∈ ds, x < 10 := fun x hx => hall x (List.mem_cons_of_mem d hx)
      have hfold : ds.foldl (fun a x => a * 10 + x) d = n := by
        have h := horner_digitsOf (b := 10) (by omega) n
        rw [hds, List.foldl_cons] at h
        simpa using h
      refine ⟨⟨fp, 1 + ds.length, 1, 2 + ds.length⟩, ?_⟩
      rw [show Lexer.new fp (String.mk (("").data ++ List.map digitChar (digitsOf 10 n)))
          = (⟨⟨fp, 0, 1, 1⟩, List.map digitChar (digitsOf 10 n)⟩ : Lexer) from rfl,
        hds, List.map_cons,
        nextToken_digitStart ⟨fp, 0, 1, 1⟩ _ (digitChar_isDigit d hdlt)
          (digitChar_ne_zeroChar d (by omega) hd0),
        digitChar_toDigit 10 (by omega) d hdlt]
      simp only [Option.getD_some]
      rw [advance_digitChar _ (show d < 16 by omega),
        show List.map digitChar ds = List.map digitChar ds ++ []
          from (List.append_nil _).symm,
        lexInt_ok_of_digits (b := 10) (by omega) (by omega) ds d _ _ [] hdslt
          (by rw [hfold]; exact hn) (fun c' hc' => by cases hc'),
        hfold]
  · exact ⟨_, scan_prefixed_literal_aux fp n 16 (by omega) (by omega) hn 'x'
      nextToken_zeroX rfl⟩
  · exact ⟨_, scan_prefixed_literal_aux fp n 10 (by omega) (by omega) hn 'd'
      nextToken_zeroD rfl⟩
  · exact ⟨_, scan_prefixed_literal_aux fp n 8 (by omega) (by omega) hn 'o'
      nextToken_zeroO rfl⟩
  · exact ⟨_, scan_prefixed_literal_aux fp n 2 (by omega) (by omega) hn 'b'
      nextToken_zeroB rfl⟩

/-- Witness for C2: `0x` followed by the hexadecimal digits of 255 scans
to `Integer 255` at the literal's start. -/
theorem scan_rendered_literal_yields_value_witness :
    ∃ locEnd : Location,
      Lexer.nextToken (Lexer.new ("t")
          (String.mk ((("0x") : String).data ++ List.map digitChar (digitsOf 16 255)))) =
        .ok (⟨.Integer 255, ⟨("t"), 0, 1, 1⟩⟩, ⟨locEnd, []⟩) :=
  scan_rendered_literal_yields_value ("t") 255 (by decide) (("0x"), 16) (by decide)

/-- C3: while scanning an integer literal, a digit character the declared
base cannot represent fails with `DigitTooLarge{base}` at the offending
character's location (first conjunct: all four prefixed bases; second
conjunct: unprefixed decimal literals), and an accumulated value exceeding
`u64` under checked multiply-then-add fails with `IntegerTooLarge` at the
literal's first character (third conjunct, for every `n > u64::MAX` in
decimal and in prefixed hexadecimal rendering). -/
theorem scan_literal_digit_and_overflow_errors :
    (∀ (fp : String) (pb : String × Nat),
      pb ∈ [(("0x" : String), 16), (("0d" : String), 10), (("0o" : String), 8),
            (("0b" : String), 2)] →
      ∀ (ds : List Nat) (c : Char) (suffix : List Char),
        (∀ d ∈ ds, d < pb.2) →
        ds.foldl (fun a d => a * pb.2 + d) 0 ≤ u64Max →
        isAsciiAlphanumeric c = true → rustToDigit c pb.2 = none →
        Lexer.nextToken (Lexer.new fp (String.mk
            (pb.1.data ++ (List.map digitChar ds ++ c :: suffix)))) =
          .error ⟨.DigitTooLarge pb.2, ⟨fp, 2 + ds.length, 1, 3 + ds.length⟩⟩) ∧
    (∀ (fp : String) (d : Nat) (ds : List Nat) (c : Char) (suffix : List Char),
        d < 10 → d ≠ 0 → (∀ x ∈ ds, x < 10) →
        ds.foldl (fun a x => a * 10 + x) d ≤ u64Max →
        isAsciiAlphanumeric c = true → rustToDigit c 10 = none →
        Lexer.nextToken (Lexer.new fp (String.mk
            (List.map digitChar (d :: ds) ++ c :: suffix))) =
          .error ⟨.DigitTooLarge 10, ⟨fp, 1 + ds.length, 1, 2 + ds.length⟩⟩) ∧
    (∀ (fp : String) (n : Nat), u64Max < n →
        Lexer.nextToken (Lexer.new fp (String.mk
            (List.map digitChar (digitsOf 10 n)))) =
          .error ⟨.IntegerTooLarge, ⟨fp, 0, 1, 1⟩⟩ ∧
        Lexer.nextToken (Lexer.new fp (String.mk
            ((("0x") : String).data ++ List.map digitChar (digitsOf 16 n)))) =
          .error ⟨.IntegerTooLarge, ⟨fp, 0, 1, 1⟩⟩) := by
  refine ⟨?_, ?_, ?_⟩
  · intro fp pb hpb ds c suffix hlt hle hc hnone
    simp only [List.mem_cons, List.not_mem_nil, or_false] at hpb
    rcases hpb with rfl | rfl | rfl | rfl
    · rw [show Lexer.new fp (String.mk ((("0x") : String).data
            ++ (List.map digitChar ds ++ c :: suffix)))
          = (⟨⟨fp, 0, 1, 1⟩, '0' :: 'x' :: (List.map digitChar ds ++ c :: suffix)⟩
            : Lexer) from rfl,
        nextToken_zeroX,
        show (Location.advance ⟨fp, 0, 1, 1⟩ '0').advance 'x'
          = (⟨fp, 2, 1, 3⟩ : Location) from rfl,
        lexInt_digitTooLarge_of_digits (by omega) (by omega) ds 0 _ _ c suffix
          hlt hle hc hnone]
    · rw [show Lexer.new fp (String.mk ((("0d") : String).data
            ++ (List.map digitChar ds ++ c :: suffix)))
          = (⟨⟨fp, 0, 1, 1⟩, '0' :: 'd' :: (List.map digitChar ds ++ c :: suffix)⟩
            : Lexer) from rfl,
        nextToken_zeroD,
        show (Location.advance ⟨fp, 0, 1, 1⟩ '0').advance 'd'
          = (⟨fp, 2, 1, 3⟩ : Location) from rfl,
        lexInt_digitTooLarge_of_digits (by omega) (by omega) ds 0 _ _ c suffix
          hlt hle hc hnone]
    · rw [show Lexer.new fp (String.mk ((("0o") : String).data
            ++ (List.map digitChar ds ++ c :: suffix)))
          = (⟨⟨fp, 0, 1, 1⟩, '0' :: 'o' :: (List.map digitChar ds ++ c :: suffix)⟩
            : Lexer) from rfl,
        nextToken_zeroO,
        show (Location.advance ⟨fp, 0, 1, 1⟩ '0').advance 'o'
          = (⟨fp, 2, 1, 3⟩ : Location) from rfl,
        lexInt_digitTooLarge_of_digits (by omega) (by omega) ds 0 _ _ c suffix
          hlt hle hc hnone]
    · rw [show Lexer.new fp (String.mk ((("0b") : String).data
            ++ (List.map digitChar ds ++ c :: suffix)))
          = (⟨⟨fp, 0, 1, 1⟩, '0' :: 'b' :: (List.map digitChar ds ++ c :: suffix)⟩
            : Lexer) from rfl,
        nextToken_zeroB,
        show (Location.advance ⟨fp, 0, 1, 1⟩ '0').advance 'b'
          = (⟨fp, 2, 1, 3⟩ : Location) from rfl,
        lexInt_digitTooLarge_of_digits (by omega) (by omega) ds 0 _ _ c suffix
          hlt hle hc hnone]
  · intro fp d ds c suffix hdlt hd0 hdslt hle hc hnone
    rw [show Lexer.new fp (String.mk (List.map digitChar (d :: ds) ++ c :: suffix))
        = (⟨⟨fp, 0, 1, 1⟩, digitChar d :: (List.map digitChar ds ++ c :: suffix)⟩
          : Lexer) from by rw [List.map_cons]; rfl,
      nextToken_digitStart ⟨fp, 0, 1, 1⟩ _ (digitChar_isDigit d hdlt)
        (digitChar_ne_zeroChar d (by omega) hd0),
      digitChar_toDigit 10 (by omega) d hdlt]
    simp only [Option.getD_some]
    rw [advance_digitChar _ (show d < 16 by omega),
      lexInt_digitTooLarge_of_digits (b := 10) (by omega) (by omega) ds d _ _ c
        suffix hdslt hle hc hnone]
  · intro fp n hgt
    have hn0 : n ≠ 0 := by
      intro h
      rw [h] at hgt
      exact absurd hgt (by decide)
    constructor
    · obtain ⟨d, ds, hds, hd0⟩ := digitsOf_head_pos (b := 10) (by omega) n hn0
      have hall : ∀ x ∈ digitsOf 10 n, x < 10 := digitsOf_all_lt (by omega) n
      rw [hds] at hall
      have hdlt : d < 10 := hall d (List.mem_cons_self d ds)
      have hdslt : ∀ x ∈ ds, x < 10 := fun x hx => hall x (List.mem_cons_of_mem d hx)
      have hfold : u64Max < ds.foldl (fun a x => a * 10 + x) d := by
        have h := horner_digitsOf (b := 10) (by omega) n
        rw [hds, List.foldl_cons] at h
        simp only [Nat.zero_mul, Nat.zero_add] at h
        rw [h]
        exact hgt
      rw [show Lexer.new fp (String.mk (List.map digitChar (digitsOf 10 n)))
          = (⟨⟨fp, 0, 1, 1⟩, List.map digitChar (digitsOf 10 n)⟩ : Lexer) from rfl,
        hds, List.map_cons,
        nextToken_digitStart ⟨fp, 0, 1, 1⟩ _ (digitChar_isDigit d hdlt)
          (digitChar_ne_zeroChar d (by omega) hd0),
        digitChar_toDigit 10 (by omega) d hdlt]
      simp only [Option.getD_some]
      rw [show List.map digitChar ds = List.map digitChar ds ++ []
          from (List.append_nil _).symm,
        lexInt_overflow_of_digits (b := 10) (by omega) (by omega) ds d _ _ []
          hdslt (by simp only [u64Max]; omega) hfold]
    · have hfold : u64Max < (digitsOf 16 n).foldl (fun a x => a * 16 + x) 0 := by
        rw [horner_digitsOf (by omega) n]
        exact hgt
      rw [show Lexer.new fp (String.mk ((("0x") : String).data
            ++ List.map digitChar (digitsOf 16 n)))
          = (⟨⟨fp, 0, 1, 1⟩, '0' :: 'x' :: List.map digitChar (digitsOf 16 n)⟩
            : Lexer) from rfl,
        nextToken_zeroX,
        show List.map digitChar (digitsOf 16 n)
          = List.map digitChar (digitsOf 16 n) ++ [] from (List.append_nil _).symm,
        lexInt_overflow_of_digits (by omega) (by omega) (digitsOf 16 n) 0 _ _ []
          (digitsOf_all_lt (by omega) n) (by simp [u64Max]) hfold]

/-- Witness for C3: `0b12` fails with `DigitTooLarge 2` at the `2`
(byte 3, column 4), and the decimal rendering of `2 ^ 64` fails with
`IntegerTooLarge` at the literal's first character. -/
theorem scan_literal_digit_and_overflow_errors_witness :
    Lexer.nextToken (Lexer.new ("t") (String.mk
        ((("0b") : String).data ++ (List.map digitChar [1] ++ '2' :: [])))) =
      .error ⟨.DigitTooLarge 2, ⟨("t"), 3, 1, 4⟩⟩ ∧
    Lexer.nextToken (Lexer.new ("t") (String.mk
        (List.map digitChar (digitsOf 10 (2 ^ 64))))) =
      .error ⟨.IntegerTooLarge, ⟨("t"), 0, 1, 1⟩⟩ :=
  ⟨scan_literal_digit_and_overflow_errors.1 ("t") (("0b"), 2) (by decide)
      [1] '2' [] (by decide) (by decide) (by decide) (by decide),
    (scan_literal_digit_and_overflow_errors.2.2 ("t") (2 ^ 64) (by decide)).1⟩

/-- Witness for C8: the theorem applied at the concrete prefix `0x`
followed by `+`. -/
theorem base_prefix_without_digits_scans_to_zero_witness :
    Except.map (fun p => p.1.kind)
        (Lexer.new ("t") (String.mk (("0x").data ++ ['+']))).nextToken
      = .ok (.Integer 0) :=
  (base_prefix_without_digits_scans_to_zero ("t") ("0x") (by decide)).2 '+'
    (by decide)

/-- C6 (counterexample): the identifier arm of `next_token` tests
`c.is_ascii_alphabetic() || c == '_'`, not full alphabetic-ness, so the
claim fails on non-ASCII alphabetic characters.  `é` (U+00E9, for which
Rust's `char::is_alphabetic` returns `true`) does not start an identifier
token: scanning `é` fails with `UnexpectedChar('é')` instead of producing
an identifier/keyword token, and scanning `aé` stops the identifier run
before `é` (no "consume while alphanumeric") and yields just `Name "a"`. -/
theorem non_ascii_alphabetic_not_identifier :
    (Lexer.new ("t") ("é")).nextToken =
      .error ⟨.UnexpectedChar 'é', ⟨("t"), 0, 1, 1⟩⟩ ∧
    (Lexer.new ("t") ("aé")).nextToken =
      .ok (⟨.Name ("a"), ⟨("t"), 0, 1, 1⟩⟩, ⟨⟨("t"), 1, 1, 2⟩, ['é']⟩) :=
  ⟨rfl, rfl⟩

/-- C6 (amended, restricted to the ASCII range the code actually tests):
an ASCII-alphabetic character or `_` at the scanner's cursor makes
`next_token` produce an identifier/keyword token: it consumes the longest
run of ASCII-alphanumeric-or-`_` characters, yields the keyword token for
the slices `let`, `fn`, `return`, and a `Name` token (carrying the symbol
identity of the slice, here the interned text itself) for any other slice.
The token is located at the cursor and the characters after the run are
left unconsumed. -/
theorem nextToken_identifier_or_keyword :
    ∀ (l : Lexer) (c : Char) (rest : List Char),
      l.rest = c :: rest → identStart c = true →
      (l.nextToken =
        .ok (⟨identTokenKind (String.mk (c :: rest.takeWhile identCont)),
              l.location⟩,
          ⟨List.foldl Location.advance (l.location.advance c)
              (rest.takeWhile identCont),
           rest.dropWhile identCont⟩)) ∧
      identTokenKind ("let") = .Let ∧
      identTokenKind ("fn") = .Fn ∧
      identTokenKind ("return") = .Return ∧
      ∀ s : String, s ≠ ("let") → s ≠ ("fn") → s ≠ ("return") →
        identTokenKind s = .Name s := by
  intro l c rest hrest hid
  refine ⟨?_, rfl, rfl, rfl, fun s h1 h2 h3 => ?_⟩
  · have hl : l = ⟨l.location, c :: rest⟩ := by
      cases l
      simp_all
    rw [hl]
    exact nextToken_identStart l.location rest hid
  · unfold identTokenKind
    split <;> simp_all

/-- Witness for C6: scanning `return7 x` yields the `Name` token
`return7` (not the `return` keyword) and stops at the space. -/
theorem nextToken_identifier_or_keyword_witness :
    (Lexer.new ("t") ("return7 x")).nextToken =
      .ok (⟨.Name ("return7"), ⟨("t"), 0, 1, 1⟩⟩,
        ⟨⟨("t"), 7, 1, 8⟩, [' ', 'x']⟩) :=
  ((nextToken_identifier_or_keyword (Lexer.new ("t") ("return7 x")) 'r'
      (("eturn7 x").data) rfl (by decide)).1).trans (by rfl)

/-- C9: in every `AstPattern` produced by a successful parse, the
`name_token` field holds a token whose kind is `Name` (`patWf`, checked
recursively through the whole tree by `astsWf`); consequently the
pretty-printer's `unreachable!()` arm for a non-`Name` pattern token in
`pretty_print_ast_pattern` can never execute on parser output. -/
theorem parsed_patterns_have_name_tokens :
    ∀ (fp source : String) (asts : List Ast),
      parse fp source = .ok asts → astsWf asts = true :=
  fun _ source asts h =>
    parseLoop_wf (8 * (source.length + 1)) _ [] asts h rfl

/-- Witness for C9: a parse exercising both pattern forms (a bare
parameter name and `let`-bound patterns with and without annotations). -/
theorem parsed_patterns_have_name_tokens_witness :
    ∃ asts : List Ast,
      parse ("t") ("fn f(x, let y: w) \x7b let z = 1; \x7d") = .ok asts ∧
      astsWf asts = true :=
  ⟨_, rfl, parsed_patterns_have_name_tokens ("t")
    ("fn f(x, let y: w) \x7b let z = 1; \x7d") _ rfl⟩

/-- C5 (counterexample): in the successful parse of
`fn f() { 1 + 2; }`, the expression statement node carries byte 8 (the
whitespace after `{`, i.e. the cursor position when statement parsing
began) while its starting token `1` is at byte 9, and the `Binary` node
carries byte 11 (its `+` operator token) rather than byte 9; so not every
node's location is the location of the token that began it. -/
theorem node_location_not_first_token :
    parse ("t") ("fn f() \x7b 1 + 2; \x7d") =
      .ok [⟨.Function ⟨.Name ("f"), ⟨("t"), 3, 1, 4⟩⟩ [] none
              ⟨.Block [⟨.Expression
                  ⟨.Binary ⟨.Integer 1, ⟨("t"), 9, 1, 10⟩⟩ .Add
                      ⟨.Integer 2, ⟨("t"), 13, 1, 14⟩⟩,
                    ⟨("t"), 11, 1, 12⟩⟩,
                  ⟨("t"), 8, 1, 9⟩⟩]
                ⟨("t"), 16, 1, 17⟩,
              ⟨("t"), 7, 1, 8⟩⟩,
            ⟨("t"), 0, 1, 1⟩⟩] ∧
    (⟨("t"), 8, 1, 9⟩ : Location) ≠ ⟨("t"), 9, 1, 10⟩ ∧
    (⟨("t"), 11, 1, 12⟩ : Location) ≠ ⟨("t"), 9, 1, 10⟩ :=
  ⟨rfl, by decide, by decide⟩

/-- C5 (amended): which token's location each node records.  Pattern nodes
carry their first token's location; function nodes carry the `fn` keyword's
location; primary expressions carry their starting token's location except
that a parenthesised expression keeps the inner expression's location;
`let`/`return`/expression statement nodes carry the scanner's cursor
location at the start of statement parsing (which precedes the starting
token when whitespace intervenes); and, as the final conjunct shows
concretely, `Binary` and `Call` nodes carry their operator token's resp.
opening parenthesis's location rather than their first token's. -/
theorem node_location_rules :
    (∀ (fuel : Nat) (l : Lexer) (rl : Bool) (p : AstPattern) (l' : Lexer),
      parsePattern fuel l rl = .ok (p, l') →
      ∃ t l₁, l.nextToken = .ok (t, l₁) ∧ p.location = t.location) ∧
    (∀ (fuel : Nat) (l : Lexer) (fnLocation : Location) (a : Ast) (l' : Lexer),
      parseFn fuel l fnLocation = .ok (a, l') → a.location = fnLocation) ∧
    (∀ (fuel : Nat) (l : Lexer) (e : AstExpression) (l' : Lexer),
      parsePrimaryExpression fuel l = .ok (e, l') →
      ∃ t l₁, l.nextToken = .ok (t, l₁) ∧
        (e.location = t.location ∨ t.kind = .OpenParenthesis)) ∧
    (∀ (fuel : Nat) (l : Lexer) (a : Ast) (l' : Lexer),
      parseStatement fuel l = .ok (a, l') →
      a.location = l.location ∨
        ∃ t, l.peekToken = .ok t ∧ t.kind = .Fn ∧ a.location = t.location) ∧
    (∀ fp : String,
      Except.map (fun p => p.1.location)
          (parseExpression 99 (Lexer.new fp ("1 + 2"))) = .ok ⟨fp, 2, 1, 3⟩ ∧
      Except.map (fun p => p.1.location)
          (parseExpression 99 (Lexer.new fp ("f(1)"))) = .ok ⟨fp, 1, 1, 2⟩) :=
  ⟨fun _ _ _ _ _ => parsePattern_location,
   fun _ _ _ _ _ => parseFn_location,
   fun _ _ _ _ => parsePrimaryExpression_location,
   fun _ _ _ _ => parseStatement_location,
   fun _ => ⟨rfl, rfl⟩⟩

/-- Witness for the amended C5: `parse_fn` on `g() {}`, handed an
arbitrary `fn` location, returns a node carrying exactly that location. -/
theorem node_location_rules_witness :
    ∃ (a : Ast) (l' : Lexer),
      parseFn 20 (Lexer.new ("t") ("g() \x7b\x7d")) ⟨("t"), 5, 2, 3⟩ =
          .ok (a, l') ∧
        a.location = ⟨("t"), 5, 2, 3⟩ :=
  ⟨_, _, rfl,
    node_location_rules.2.1 20 (Lexer.new ("t") ("g() \x7b\x7d"))
      ⟨("t"), 5, 2, 3⟩ _ _ rfl⟩

/-- Evaluation of `next_token` on a whitespace character: the
`loop`/`continue` consumes it and rescans. -/
theorem nextToken_ws_step {c : Char} (hc : rustIsWhitespace c = true)
    (loc : Location) (rest : List Char) :
    Lexer.nextToken ⟨loc, c :: rest⟩ = Lexer.nextToken ⟨loc.advance c, rest⟩ := by
  simp only [Lexer.nextToken, skipWhitespace_cons_of_ws hc]

/-- On all-whitespace input, `next_token` consumes everything and yields
`EOF`. -/
theorem nextToken_all_ws :
    ∀ (rest : List Char) (loc : Location),
      (∀ c ∈ rest, rustIsWhitespace c = true) →
      ∃ loc', Lexer.nextToken ⟨loc, rest⟩ = .ok (⟨.EOF, loc'⟩, ⟨loc', []⟩) := by
  intro rest
  induction rest with
  | nil => exact fun loc _ => ⟨loc, rfl⟩
  | cons c rest ih =>
    intro loc h
    rw [nextToken_ws_step (h c (List.mem_cons_self c rest)) loc rest]
    exact ih (loc.advance c) fun c' hc' => h c' (List.mem_cons_of_mem c hc')

/-- C10: parsing an empty source, or a source consisting only of
whitespace characters, succeeds with an empty list of top-level nodes. -/
theorem parse_empty_or_whitespace_only_gives_no_items :
    (∀ fp : String, parse fp ("") = .ok []) ∧
    (∀ fp source : String,
      (∀ c ∈ source.data, rustIsWhitespace c = true) →
      parse fp source = .ok []) := by
  refine ⟨fun fp => rfl, fun fp source h => ?_⟩
  obtain ⟨loc', hnt⟩ := nextToken_all_ws source.data ⟨fp, 0, 1, 1⟩ h
  have hpk : (Lexer.new fp source).peekToken = .ok ⟨.EOF, loc'⟩ := by
    show Except.map Prod.fst (Lexer.nextToken ⟨⟨fp, 0, 1, 1⟩, source.data⟩) = _
    rw [hnt]
    rfl
  show parseLoop (8 * (source.length + 1)) (Lexer.new fp source) [] = .ok []
  obtain ⟨fuel, hf⟩ : ∃ k, 8 * (source.length + 1) = k + 1 :=
    ⟨8 * (source.length + 1) - 1, by omega⟩
  rw [hf, parseLoop, hpk]
  rfl

/-- Witness for C10: a concrete whitespace-only source. -/
theorem parse_empty_or_whitespace_only_gives_no_items_witness :
    parse ("t") (" \n\t ") = .ok [] :=
  parse_empty_or_whitespace_only_gives_no_items.2 ("t") (" \n\t ") (by decide)

end Lang
